import Mathlib

/-!
Verification of the circuit-synthesis interpreter (`src/process.rs`).

This file shallowly embeds the circuit-synthesis interpreter of the
repository: the statement executor, the expression evaluator, the infix
dispatch, the call machinery and the `execute_op` arithmetic of
`src/process.rs`, together with the arithmetic circuit and the
context/scope-stack runtime that `process.rs` drives.

The circuit (`circuit.rs`) and the runtime (`runtime.rs`) are not part of
the provided sources; their operations are modelled from the specification
(each such definition carries a doc comment starting with
`Modelled from the spec:`).  Everything in `process.rs` is translated
directly from the source.

Machine integers (`u32`) are modelled as `Nat` with explicit reduction
modulo `2 ^ 32` where the Rust code can overflow; overflowing operations
use the wrapping (release-mode) semantics of Rust, which is also what the
specification describes for shifts ("shifts use low-order bits of `rhs`").

The interpreter functions are made total with an explicit fuel parameter;
`ProgramError.OutOfFuel` is an artifact of the embedding and is never
produced by a run that terminates in the source program.
-/

deriving instance DecidableEq for Except

/-- The modulus of 32-bit unsigned arithmetic. -/
def U32 : Nat := 2 ^ 32

/-- Error type of the interpreter.  Modelled from the spec: §7 lists the
error taxonomy of `ProgramError` (`program.rs` is not in the provided
sources).  `ItemNotDeclared` is the lookup-miss error of the runtime,
`RuntimeError` the context-stack fault, and `OutOfFuel` is an artifact of
the fuel-based embedding (see the module docstring). -/
inductive ProgramError
  | UndefinedFunctionOrTemplate
  | AlreadyDeclared
  | EmptyDataItem
  | OutOfBounds
  | NotAVariable
  | NotASignal
  | NotAComponent
  | DuplicateSignal
  | UnknownSignal
  | OperationError (msg : String)
  | ParsingError
  | OperationNotSupported
  | ItemNotDeclared
  | RuntimeError
  | OutOfFuel
deriving DecidableEq, Repr

/-- The infix opcodes of the circom AST (`ExpressionInfixOpcode`). -/
inductive ExpressionInfixOpcode
  | Mul | Div | Add | Sub | Pow | IntDiv | Mod | ShiftL | ShiftR
  | LesserEq | GreaterEq | Lesser | Greater | Eq | NotEq
  | BoolOr | BoolAnd | BitOr | BitAnd | BitXor
deriving DecidableEq, Repr

/-- Modelled from the spec: §3 lists one arithmetic-gate type per infix
opcode (`AGateType` lives in `circuit.rs`, which is not in the provided
sources); we identify the gate type with the opcode it reifies, and
`AGateType.from` (the `From<&ExpressionInfixOpcode>` impl) is the
identity under this identification. -/
abbrev AGateType := ExpressionInfixOpcode

/-- `AGateType::from(op)` under the identification above. -/
def AGateType.fromOp (op : ExpressionInfixOpcode) : AGateType := op

/-- `execute_op` (src/process.rs:503): executes an operation on two `u32`
values.  `Nat` stands for `u32`; operations that can overflow in Rust
(`Mul`, `Add`, `Sub`, `Pow`, `ShiftL`) reduce modulo `2 ^ 32`, the
wrapping release-mode semantics; shifts mask the shift amount to its low
five bits (`rhs % 32`), which is Rust's wrapping behavior for a shift
amount that is not less than the bit width. -/
def execute_op (lhs rhs : Nat) (op : ExpressionInfixOpcode) : Except ProgramError Nat :=
  match op with
  | .Mul => .ok ((lhs * rhs) % U32)
  | .Div =>
    if rhs = 0 then .error (.OperationError ("Division by zero"))
    else .ok (lhs / rhs)
  | .Add => .ok ((lhs + rhs) % U32)
  | .Sub => .ok ((U32 + lhs - rhs) % U32)
  | .Pow => .ok ((lhs ^ rhs) % U32)
  | .IntDiv =>
    if rhs = 0 then .error (.OperationError ("Integer division by zero"))
    else .ok (lhs / rhs)
  | .Mod =>
    if rhs = 0 then .error (.OperationError ("Modulo by zero"))
    else .ok (lhs % rhs)
  | .ShiftL => .ok ((lhs <<< (rhs % 32)) % U32)
  | .ShiftR => .ok (lhs >>> (rhs % 32))
  | .LesserEq => .ok (if lhs ≤ rhs then 1 else 0)
  | .GreaterEq => .ok (if rhs ≤ lhs then 1 else 0)
  | .Lesser => .ok (if lhs < rhs then 1 else 0)
  | .Greater => .ok (if rhs < lhs then 1 else 0)
  | .Eq => .ok (if lhs = rhs then 1 else 0)
  | .NotEq => .ok (if lhs = rhs then 0 else 1)
  | .BoolOr => .ok (if lhs ≠ 0 ∨ rhs ≠ 0 then 1 else 0)
  | .BoolAnd => .ok (if lhs ≠ 0 ∧ rhs ≠ 0 then 1 else 0)
  | .BitOr => .ok (lhs ||| rhs)
  | .BitAnd => .ok (lhs &&& rhs)
  | .BitXor => .ok (lhs ^^^ rhs)

/-! ## The arithmetic circuit (modelled from the spec, §4.1) -/

/-- A gate record `(type, lhs_id, rhs_id, out_id)` (spec §3). -/
structure Gate where
  gateType : AGateType
  lhs : Nat
  rhs : Nat
  out : Nat
deriving DecidableEq, Repr

/-- Modelled from the spec: the `ArithmeticCircuit` of `circuit.rs` (not in
the provided sources): an append-only store of signals (ids in
registration order), gates (in append order) and connections (in append
order), §4.1 and §6. -/
structure ArithmeticCircuit where
  signals : List Nat
  gates : List Gate
  connections : List (Nat × Nat)
deriving DecidableEq, Repr

/-- Modelled from the spec: `add_signal(id)` registers `id`; fails
`DuplicateSignal` if `id` is already registered (§4.1). -/
def ArithmeticCircuit.add_signal (ac : ArithmeticCircuit) (id : Nat) :
    Except ProgramError ArithmeticCircuit :=
  if id ∈ ac.signals then .error .DuplicateSignal
  else .ok { ac with signals := ac.signals ++ [id] }

/-- Modelled from the spec: `add_const(value)` registers a constant-valued
signal whose id equals `value`; idempotent, re-registering is a no-op
(§4.1, P6). -/
def ArithmeticCircuit.add_const (ac : ArithmeticCircuit) (value : Nat) :
    Except ProgramError ArithmeticCircuit :=
  if value ∈ ac.signals then .ok ac
  else .ok { ac with signals := ac.signals ++ [value] }

/-- Modelled from the spec: `add_gate` appends a gate; fails
`UnknownSignal` if any of its three signal ids is unregistered (§4.1). -/
def ArithmeticCircuit.add_gate (ac : ArithmeticCircuit) (gateType : AGateType)
    (lhs rhs out : Nat) : Except ProgramError ArithmeticCircuit :=
  if lhs ∈ ac.signals ∧ rhs ∈ ac.signals ∧ out ∈ ac.signals then
    .ok { ac with gates := ac.gates ++ [⟨gateType, lhs, rhs, out⟩] }
  else .error .UnknownSignal

/-- Modelled from the spec: `add_connection(src, dst)` appends a
connection, with the same well-formedness check (§4.1). -/
def ArithmeticCircuit.add_connection (ac : ArithmeticCircuit) (src dst : Nat) :
    Except ProgramError ArithmeticCircuit :=
  if src ∈ ac.signals ∧ dst ∈ ac.signals then
    .ok { ac with connections := ac.connections ++ [(src, dst)] }
  else .error .UnknownSignal

/-! ## The runtime: items, accesses, contexts (modelled from the spec, §3, §4.2) -/

/-- The data type of a named item (spec §3). -/
inductive DataType
  | Variable
  | Signal
  | Component
deriving DecidableEq, Repr

/-- A sub-access: array index or component signal name (spec §3). -/
inductive SubAccess
  | Array (idx : Nat)
  | Component (name : String)
deriving DecidableEq, Repr

/-- A `DataAccess`: a name plus a chain of sub-accesses (spec §3). -/
structure DataAccess where
  name : String
  access : List SubAccess
deriving DecidableEq, Repr

/-- `u32_to_access` (runtime.rs, not in the provided sources): turns a
vector of indices into the corresponding array sub-access chain. -/
def u32_to_access (indices : List Nat) : List SubAccess :=
  indices.map SubAccess.Array

/-- The reserved name used for function-return plumbing (spec I5). -/
def RETURN_VAR : String := "RETURN"

/-- Modelled from the spec: the raw `Signal` record of the runtime —
shape plus the pre-allocated signal id of every leaf, row-major
(§3, §4.2 `get_signal`). -/
structure Signal where
  dims : List Nat
  ids : List Nat
deriving DecidableEq, Repr

/-- The number of leaves of an item of shape `dims` (`∏ dᵢ`, 1 for a
scalar). -/
def prodDims : List Nat → Nat
  | [] => 1
  | d :: ds => d * prodDims ds

/-- Row-major rank of an index tuple: indices advance with the last
dimension varying fastest (spec §4.4.2). -/
def rowMajorIndex : List Nat → List Nat → Nat
  | _ :: ds, i :: is => i * prodDims ds + rowMajorIndex ds is
  | _, _ => 0

/-- Index-tuple validity: same length as the shape and pointwise within
bounds. -/
def validIndices : List Nat → List Nat → Bool
  | [], [] => true
  | d :: ds, i :: is => decide (i < d) && validIndices ds is
  | _, _ => false

/-- Modelled from the spec: a named item of a context (§3): a variable
(leaf values, `none` = uninitialized), a signal (pre-allocated leaf ids)
or a component (leaf bindings `signal name → Signal record`).  Leaf
storage is a flat row-major list of length `prodDims dims`. -/
inductive Item
  | varItem (dims : List Nat) (vals : List (Option Nat))
  | sigItem (sig : Signal)
  | compItem (dims : List Nat) (maps : List (List (String × Signal)))
deriving DecidableEq, Repr

/-- Lookup in an association list of items (first match). -/
def lookupItem : List (String × Item) → String → Option Item
  | [], _ => none
  | (n, it) :: rest, name => if n = name then some it else lookupItem rest name

/-- The data type of an item. -/
def Item.dataType : Item → DataType
  | .varItem _ _ => .Variable
  | .sigItem _ => .Signal
  | .compItem _ _ => .Component

/-- Modelled from the spec: a scope frame (`Context` of runtime.rs):
an ordered name table plus the inherited-vs-fresh flag of the frame
(§3, §4.2). -/
structure Context where
  inherited : Bool
  items : List (String × Item)
deriving DecidableEq, Repr

/-- Modelled from the spec: the `Runtime`: the stack of scope frames (head
is the current frame), the dense signal-id allocator (ids start at 1, §3)
and the process-wide counter behind `generate_u32` / random names
(§4.2). -/
structure Runtime where
  frames : List Context
  signalCounter : Nat
  nameCounter : Nat
deriving DecidableEq, Repr

/-- The frames visible from the top of the stack: inherited frames fall
through to their parent; the first fresh frame is the last visible one
(spec §4.2). -/
def visibleFrames : List Context → List Context
  | [] => []
  | c :: rest => if c.inherited then c :: visibleFrames rest else [c]

/-- Resolve a name through the visible frames (nearest declaration
wins). -/
def findItem (frames : List Context) (name : String) : Option Item :=
  match frames with
  | [] => none
  | c :: rest =>
    match lookupItem c.items name with
    | some it => some it
    | none => findItem rest name

/-- Extract the array indices of an access chain; `none` when the chain
contains a component sub-access. -/
def arrayIndices : List SubAccess → Option (List Nat)
  | [] => some []
  | .Array i :: rest => (arrayIndices rest).map (i :: ·)
  | .Component _ :: _ => none

/-- Modelled from the spec: `get_item_data_type(name)` (§4.2). -/
def Runtime.get_item_data_type (rt : Runtime) (name : String) :
    Except ProgramError DataType :=
  match findItem (visibleFrames rt.frames) name with
  | some (.varItem _ _) => .ok .Variable
  | some (.sigItem _) => .ok .Signal
  | some (.compItem _ _) => .ok .Component
  | none => .error .ItemNotDeclared

/-- Modelled from the spec: `get_variable_value(access)` resolves through
inherited frames; `NotAVariable` on a non-variable item, `OutOfBounds` on
an index outside the declared shape (§4.2). -/
def Runtime.get_variable_value (rt : Runtime) (access : DataAccess) :
    Except ProgramError (Option Nat) :=
  match findItem (visibleFrames rt.frames) access.name with
  | none => .error .ItemNotDeclared
  | some (.varItem dims vals) =>
    match arrayIndices access.access with
    | none => .error .OutOfBounds
    | some idx =>
      if validIndices dims idx then .ok (vals.getD (rowMajorIndex dims idx) none)
      else .error .OutOfBounds
  | some _ => .error .NotAVariable

/-- Modelled from the spec: `get_signal_id(access)` returns the
pre-allocated id of the addressed signal leaf (§4.2). -/
def Runtime.get_signal_id (rt : Runtime) (access : DataAccess) :
    Except ProgramError Nat :=
  match findItem (visibleFrames rt.frames) access.name with
  | none => .error .ItemNotDeclared
  | some (.sigItem sig) =>
    match arrayIndices access.access with
    | none => .error .OutOfBounds
    | some idx =>
      if validIndices sig.dims idx then .ok (sig.ids.getD (rowMajorIndex sig.dims idx) 0)
      else .error .OutOfBounds
  | some _ => .error .NotASignal

/-- Modelled from the spec: `get_signal(name)` returns the raw signal
record of the named item (§4.2). -/
def Runtime.get_signal (rt : Runtime) (name : String) :
    Except ProgramError Signal :=
  match findItem (visibleFrames rt.frames) name with
  | none => .error .ItemNotDeclared
  | some (.sigItem sig) => .ok sig
  | some _ => .error .NotASignal

/-- Update the addressed leaf of an item in place; used by the `set_*`
operations below. -/
def updateInFrames (frames : List Context) (name : String)
    (f : Item → Except ProgramError Item) : Except ProgramError (List Context) :=
  match frames with
  | [] => .error .ItemNotDeclared
  | c :: rest =>
    match lookupItem c.items name with
    | some _ =>
      match updateItems c.items name f with
      | .error e => .error e
      | .ok items' => .ok ({ c with items := items' } :: rest)
    | none =>
      if c.inherited then
        match updateInFrames rest name f with
        | .error e => .error e
        | .ok rest' => .ok (c :: rest')
      else .error .ItemNotDeclared
where
  /-- Update the first binding of `name` in an item list. -/
  updateItems : List (String × Item) → String →
      (Item → Except ProgramError Item) → Except ProgramError (List (String × Item))
    | [], _, _ => .error .ItemNotDeclared
    | (n, it) :: rest, name, f =>
      if n = name then
        match f it with
        | .error e => .error e
        | .ok it' => .ok ((n, it') :: rest)
      else
        match updateItems rest name f with
        | .error e => .error e
        | .ok rest' => .ok ((n, it) :: rest')

/-- Modelled from the spec: `set_variable(access, value)` writes the
addressed variable leaf in the nearest visible frame declaring the name
(§4.2). -/
def Runtime.set_variable (rt : Runtime) (access : DataAccess) (value : Option Nat) :
    Except ProgramError Runtime :=
  match updateInFrames rt.frames access.name (fun it =>
    match it with
    | .varItem dims vals =>
      match arrayIndices access.access with
      | none => .error .OutOfBounds
      | some idx =>
        if validIndices dims idx then
          .ok (.varItem dims (vals.set (rowMajorIndex dims idx) value))
        else .error .OutOfBounds
    | _ => .error .NotAVariable) with
  | .error e => .error e
  | .ok frames' => .ok { rt with frames := frames' }

/-- Modelled from the spec: `set_component(access, map)` binds the
addressed component leaf to a signal map (§4.2). -/
def Runtime.set_component (rt : Runtime) (access : DataAccess)
    (map : List (String × Signal)) : Except ProgramError Runtime :=
  match updateInFrames rt.frames access.name (fun it =>
    match it with
    | .compItem dims maps =>
      match arrayIndices access.access with
      | none => .error .OutOfBounds
      | some idx =>
        if validIndices dims idx then
          .ok (.compItem dims (maps.set (rowMajorIndex dims idx) map))
        else .error .OutOfBounds
    | _ => .error .NotAComponent) with
  | .error e => .error e
  | .ok frames' => .ok { rt with frames := frames' }

/-- Modelled from the spec: `get_component_map(access)` reads the signal
map bound to the addressed component leaf (§4.2). -/
def Runtime.get_component_map (rt : Runtime) (access : DataAccess) :
    Except ProgramError (List (String × Signal)) :=
  match findItem (visibleFrames rt.frames) access.name with
  | none => .error .ItemNotDeclared
  | some (.compItem dims maps) =>
    match arrayIndices access.access with
    | none => .error .OutOfBounds
    | some idx =>
      if validIndices dims idx then .ok (maps.getD (rowMajorIndex dims idx) [])
      else .error .OutOfBounds
  | some _ => .error .NotAComponent

/-- Split an access chain `pre ++ [Component sig] ++ post` at its first
component sub-access; `none` when there is none or when the prefix holds a
component sub-access. -/
def splitComponentAccess : List SubAccess → Option (List Nat × String × List Nat)
  | [] => none
  | .Component s :: rest => (arrayIndices rest).map (fun post => ([], s, post))
  | .Array i :: rest =>
    (splitComponentAccess rest).map (fun (pre, s, post) => (i :: pre, s, post))

/-- Lookup in a component's signal map. -/
def lookupSignal : List (String × Signal) → String → Option Signal
  | [], _ => none
  | (n, sig) :: rest, name => if n = name then some sig else lookupSignal rest name

/-- Modelled from the spec: `get_component_signal_id(access)`: for
`comp.sig` (or `comp.sig[i]`, or `comp_arr[j].sig`) looks up the component
binding and returns the stored id (§4.2). -/
def Runtime.get_component_signal_id (rt : Runtime) (access : DataAccess) :
    Except ProgramError Nat :=
  match findItem (visibleFrames rt.frames) access.name with
  | none => .error .ItemNotDeclared
  | some (.compItem dims maps) =>
    match splitComponentAccess access.access with
    | none => .error .OutOfBounds
    | some (pre, sigName, post) =>
      if validIndices dims pre then
        match lookupSignal (maps.getD (rowMajorIndex dims pre) []) sigName with
        | none => .error .NotAComponent
        | some sig =>
          if validIndices sig.dims post then
            .ok (sig.ids.getD (rowMajorIndex sig.dims post) 0)
          else .error .OutOfBounds
      else .error .OutOfBounds
  | some _ => .error .NotAComponent

/-- Modelled from the spec: `declare_item(type, name, dims)` creates an
item in the current frame; `AlreadyDeclared` on a name collision inside
the frame; a `Signal` receives one dense pre-allocated id per leaf, in
row-major order, from the circuit-wide allocator (§4.2, §3). -/
def Runtime.declare_item (rt : Runtime) (dt : DataType) (name : String)
    (dims : List Nat) : Except ProgramError Runtime :=
  match rt.frames with
  | [] => .error .RuntimeError
  | c :: rest =>
    match lookupItem c.items name with
    | some _ => .error .AlreadyDeclared
    | none =>
      let n := prodDims dims
      match dt with
      | .Variable =>
        .ok { rt with frames :=
          { c with items := c.items ++ [(name, .varItem dims (List.replicate n none))] } :: rest }
      | .Signal =>
        .ok { rt with
          frames :=
            { c with items := c.items ++
              [(name, .sigItem ⟨dims, List.range' rt.signalCounter n⟩)] } :: rest,
          signalCounter := rt.signalCounter + n }
      | .Component =>
        .ok { rt with frames :=
          { c with items := c.items ++ [(name, .compItem dims (List.replicate n []))] } :: rest }

/-- Modelled from the spec: `declare_random_item(type)` declares an
anonymous scalar item under a synthetic unique name drawn from the
process-wide counter and returns its access (§4.2). -/
def Runtime.declare_random_item (rt : Runtime) (dt : DataType) :
    Except ProgramError (DataAccess × Runtime) :=
  match Runtime.declare_item { rt with nameCounter := rt.nameCounter + 1 } dt
      ("random_" ++ Nat.repr rt.nameCounter) [] with
  | .error e => .error e
  | .ok rt2 => .ok (⟨"random_" ++ Nat.repr rt.nameCounter, []⟩, rt2)

/-- Modelled from the spec: `generate_u32()` draws the next value of the
process-wide monotonic counter (§4.2). -/
def Runtime.generate_u32 (rt : Runtime) : Nat × Runtime :=
  (rt.nameCounter, { rt with nameCounter := rt.nameCounter + 1 })

/-- Modelled from the spec: `push_context(inherited)` pushes an empty
frame of the given scope discipline (§4.2). -/
def Runtime.push_context (rt : Runtime) (inherited : Bool) :
    Except ProgramError Runtime :=
  .ok { rt with frames := ⟨inherited, []⟩ :: rt.frames }

/-- Modelled from the spec: `pop_context` discards the current frame;
an unbalanced pop is a runtime fault (§4.2). -/
def Runtime.pop_context (rt : Runtime) (_inherited : Bool) :
    Except ProgramError Runtime :=
  match rt.frames with
  | [] => .error .RuntimeError
  | _ :: rest => .ok { rt with frames := rest }

/-! ## The AST (the statement and expression forms of §4 consumed by
`process.rs`) -/

/-- Assignment operators of the circom AST (`AssignOp`). -/
inductive AssignOp
  | AssignVar
  | AssignSignal
  | AssignConstraintSignal
deriving DecidableEq, Repr

mutual

/-- The expression forms matched by `process_expression`
(src/process.rs:227).  `Number` carries the literal as a `Nat` (the
`BigInt` of the source; circom literals are non-negative), fitting `u32`
exactly when it is `< 2 ^ 32`.  The unimplemented forms carry their
sub-expressions but the interpreter never touches them, mirroring the
source's placeholder arms. -/
inductive Expression
  | Call (id : String) (args : List Expression)
  | InfixOp (lhe : Expression) (infix_op : ExpressionInfixOpcode) (rhe : Expression)
  | Number (value : Nat)
  | Variable (name : String) (access : List Access)
  | PrefixOp (rhe : Expression)
  | InlineSwitchOp (cond if_true if_false : Expression)
  | ParallelOp (rhe : Expression)
  | AnonymousComp (id : String) (params signals : List Expression)
  | ArrayInLine (values : List Expression)
  | Tuple (values : List Expression)
  | UniformArray (value dimension : Expression)

/-- An element of an access chain in the AST (`Access`): an array index
expression or a component signal name. -/
inductive Access
  | ArrayAccess (e : Expression)
  | ComponentAccess (s : String)

end

/-- The statement forms matched by `process_statement`
(src/process.rs:33).  `Declaration.xtype` embeds the already-converted
`DataType`, so the `DataType::try_from(xtype)?` of the source is the
identity here and cannot fail.  The five recognized-but-deferred forms
carry their payloads but are no-ops (the source only prints a notice). -/
inductive Statement
  | Block (stmts : List Statement)
  | InitializationBlock (initializations : List Statement)
  | Declaration (xtype : DataType) (name : String) (dimensions : List Expression)
  | While (cond : Expression) (stmt : Statement)
  | IfThenElse (cond : Expression) (if_case : Statement) (else_case : Option Statement)
  | Substitution (var : String) (access : List Access) (op : AssignOp) (rhe : Expression)
  | Return (value : Expression)
  | MultSubstitution (lhe : Expression) (op : AssignOp) (rhe : Expression)
  | UnderscoreSubstitution (op : AssignOp) (rhe : Expression)
  | ConstraintEquality (lhe rhe : Expression)
  | LogCall (args : List Expression)
  | Assert (arg : Expression)

/-- Function data exposed by the program archive (spec §6). -/
structure FunctionData where
  params : List String
  body : List Statement

/-- Template data exposed by the program archive (spec §6): parameters,
body, and the names of the declared input and output signals. -/
structure TemplateData where
  params : List String
  body : List Statement
  inputs : List String
  outputs : List String

/-- The `ProgramArchive` of function and template definitions (spec §6). -/
structure ProgramArchive where
  functions : List (String × FunctionData)
  templates : List (String × TemplateData)

/-- Association-list lookup used by the archive accessors. -/
def assocFind {α : Type} : List (String × α) → String → Option α
  | [], _ => none
  | (n, a) :: rest, name => if n = name then some a else assocFind rest name

/-- `get_function_data`, as a partial lookup. -/
def ProgramArchive.get_function (p : ProgramArchive) (id : String) : Option FunctionData :=
  assocFind p.functions id

/-- `get_template_data`, as a partial lookup. -/
def ProgramArchive.get_template (p : ProgramArchive) (id : String) : Option TemplateData :=
  assocFind p.templates id

/-- `contains_function(name)` (spec §6). -/
def ProgramArchive.contains_function (p : ProgramArchive) (id : String) : Bool :=
  (p.get_function id).isSome

/-- `contains_template(name)` (spec §6). -/
def ProgramArchive.contains_template (p : ProgramArchive) (id : String) : Bool :=
  (p.get_template id).isSome

/-! ## The interpreter state and its effect combinators

The Rust functions mutate `ac: &mut ArithmeticCircuit` and
`runtime: &mut Runtime` in place and return `Result<_, ProgramError>`;
mutations made before an error persist.  The embedding threads an explicit
state and returns it in both the success and the error case. -/

/-- The mutable state of the interpreter: the circuit and the runtime. -/
structure EState where
  ac : ArithmeticCircuit
  runtime : Runtime
deriving DecidableEq, Repr

/-- Result of one interpreter step: outcome plus the state after it (the
state is meaningful in the error case too, matching `&mut` semantics). -/
abbrev EResult (α : Type) := Except ProgramError α × EState

/-- Sequencing with `?`-propagation: an error short-circuits and keeps the
state reached so far. -/
def bindE {α β : Type} (x : EResult α) (f : α → EState → EResult β) : EResult β :=
  match x with
  | (.ok a, s) => f a s
  | (.error e, s) => (.error e, s)

/-- Lift a read-only runtime operation. -/
def readRt {α : Type} (f : Runtime → Except ProgramError α) (s : EState) : EResult α :=
  (f s.runtime, s)

/-- Lift a runtime mutation (atomic: the runtime is unchanged on error). -/
def modifyRt (f : Runtime → Except ProgramError Runtime) (s : EState) : EResult Unit :=
  match f s.runtime with
  | .error e => (.error e, s)
  | .ok rt => (.ok (), { s with runtime := rt })

/-- Lift a runtime mutation that also returns a value. -/
def modifyRtA {α : Type} (f : Runtime → Except ProgramError (α × Runtime)) (s : EState) :
    EResult α :=
  match f s.runtime with
  | .error e => (.error e, s)
  | .ok (a, rt) => (.ok a, { s with runtime := rt })

/-- Lift a circuit mutation (atomic: the circuit is unchanged on error). -/
def modifyAc (f : ArithmeticCircuit → Except ProgramError ArithmeticCircuit) (s : EState) :
    EResult Unit :=
  match f s.ac with
  | .error e => (.error e, s)
  | .ok ac => (.ok (), { s with ac := ac })

/-- Lift a pure fallible computation. -/
def pureE {α : Type} (x : Except ProgramError α) (s : EState) : EResult α := (x, s)

/-- `.ok_or(ProgramError::EmptyDataItem)?` applied to the result of
`get_variable_value`: an uninitialized leaf is an error. -/
def expectValue (x : Except ProgramError (Option Nat)) : Except ProgramError Nat :=
  match x with
  | .ok (some v) => .ok v
  | .ok none => .error .EmptyDataItem
  | .error e => .error e

/-- The empty access returned by the unimplemented expression forms
(`DataAccess::new("", vec![])`). -/
def emptyAccess : DataAccess := { name := "", access := [] }

/-- `get_signal_for_access` (src/process.rs:455): returns a signal id for
an access — the pre-allocated id of a signal, the bound id of a component
signal, or, for a variable, registers the value as a constant signal via
`add_const` and returns the value itself as the id. -/
def get_signal_for_access (ac : ArithmeticCircuit) (rt : Runtime) (access : DataAccess) :
    Except ProgramError (Nat × ArithmeticCircuit) :=
  match rt.get_item_data_type access.name with
  | .error e => .error e
  | .ok .Signal =>
    match rt.get_signal_id access with
    | .error e => .error e
    | .ok id => .ok (id, ac)
  | .ok .Variable =>
    match rt.get_variable_value access with
    | .error e => .error e
    | .ok none => .error .EmptyDataItem
    | .ok (some value) =>
      match ac.add_const value with
      | .error e => .error e
      | .ok ac' => .ok (value, ac')
  | .ok .Component =>
    match rt.get_component_signal_id access with
    | .error e => .error e
    | .ok id => .ok (id, ac)

/-- `get_signal_for_access` as an interpreter step. -/
def coerceSignal (access : DataAccess) (s : EState) : EResult Nat :=
  match get_signal_for_access s.ac s.runtime access with
  | .error e => (.error e, s)
  | .ok (id, ac) => (.ok id, { s with ac := ac })

/-- Modelled from the spec: `increment_indices` (runtime.rs, not in the
provided sources): the row-major odometer of §4.4.2 — indices advance with
the last dimension varying fastest; `none` once the enumeration is
exhausted (the source returns `false` and the declaration loop breaks). -/
def increment_indices (indices dims : List Nat) : Option (List Nat) :=
  match dims, indices with
  | [], [] => none
  | d :: ds, i :: is =>
    match increment_indices is ds with
    | some is' => some (i :: is')
    | none => if i + 1 < d then some ((i + 1) :: ds.map (fun _ => 0)) else none
  | _, _ => none

/-- The signal-registration loop of the `Declaration` arm
(src/process.rs:80-93): registers the leaf at the current indices, then
advances the odometer until it wraps.  The loop is bounded in the source
by the exhaustion of the odometer; the fuel (instantiated with
`prodDims dims + 1` at the call site, enough for every enumeration the
source completes) keeps the embedding total.  Errors keep the partially
extended circuit, matching `&mut` semantics. -/
def register_signal_loop (rt : Runtime) (name : String) (dims : List Nat) :
    Nat → List Nat → ArithmeticCircuit → Except ProgramError Unit × ArithmeticCircuit
  | 0, _, ac => (.error .OutOfFuel, ac)
  | fuel + 1, indices, ac =>
    match rt.get_signal_id ⟨name, u32_to_access indices⟩ with
    | .error e => (.error e, ac)
    | .ok signal_id =>
      match ac.add_signal signal_id with
      | .error e => (.error e, ac)
      | .ok ac1 =>
        match increment_indices indices dims with
        | none => (.ok (), ac1)
        | some indices' => register_signal_loop rt name dims fuel indices' ac1

/-- The second pass of the `Declaration` arm (src/process.rs:63-69):
resolve every dimension access to a scalar, `EmptyDataItem` on an
uninitialized one. -/
def get_variable_values (rt : Runtime) : List DataAccess → Except ProgramError (List Nat)
  | [] => .ok []
  | a :: rest =>
    match expectValue (rt.get_variable_value a) with
    | .error e => .error e
    | .ok v =>
      match get_variable_values rt rest with
      | .error e => .error e
      | .ok vs => .ok (v :: vs)

/-- The argument-binding loop of `handle_call` (src/process.rs:346-353):
declare each parameter of the zipped list as a scalar variable in the
fresh frame and assign the collected value.  The zip silently truncates to
the shorter of the two lists, exactly as `arg_names.iter().zip(..)`. -/
def bind_params : List (String × Nat) → Runtime → Except ProgramError Runtime
  | [], rt => .ok rt
  | (arg_name, arg_value) :: rest, rt =>
    match rt.declare_item .Variable arg_name [] with
    | .error e => .error e
    | .ok rt1 =>
      match rt1.set_variable ⟨arg_name, []⟩ (some arg_value) with
      | .error e => .error e
      | .ok rt2 => bind_params rest rt2

/-- The component-return gathering of `handle_call`
(src/process.rs:376-379): fetch the signal record of every input and
output signal of the template, still inside the callee frame. -/
def gather_component_signals (rt : Runtime) :
    List String → Except ProgramError (List (String × Signal))
  | [] => .ok []
  | sigName :: rest =>
    match rt.get_signal sigName with
    | .error e => .error e
    | .ok sig =>
      match gather_component_signals rt rest with
      | .error e => .error e
      | .ok m => .ok ((sigName, sig) :: m)

/-- The return-data gathering of `handle_call` (src/process.rs:358-380),
run inside the callee frame: for a function, the value of the reserved
`RETURN` variable (`none` when absent or uninitialized — the source
swallows the lookup error with `if let Ok(value)`); for a template, the
signal records of its inputs and outputs. -/
def gather_return (arch : ProgramArchive) (id : String) (is_function : Bool) (s : EState) :
    EResult (Sum (Option Nat) (List (String × Signal))) :=
  if is_function then
    (.ok (.inl (match s.runtime.get_variable_value ⟨RETURN_VAR, []⟩ with
      | .ok value => value
      | .error _ => none)), s)
  else
    match arch.get_template id with
    | none => (.error .UndefinedFunctionOrTemplate, s)
    | some template_data =>
      match gather_component_signals s.runtime
          (template_data.inputs ++ template_data.outputs) with
      | .error e => (.error e, s)
      | .ok component_return => (.ok (.inr component_return), s)

/-! ## The interpreter (src/process.rs)

All mutually recursive functions take a fuel parameter; every mutual call
happens at one unit less.  A run that the source completes is reproduced
exactly by any sufficiently large fuel. -/

mutual

/-- `process_statements` (src/process.rs:19): sequential execution. -/
def process_statements (arch : ProgramArchive) :
    Nat → List Statement → EState → EResult Unit
  | 0, _, s => (.error .OutOfFuel, s)
  | _ + 1, [], s => (.ok (), s)
  | fuel + 1, statement :: rest, s =>
    bindE (process_statement arch fuel statement s) (fun _ s1 =>
    process_statements arch fuel rest s1)

/-- `process_statement` (src/process.rs:33). -/
def process_statement (arch : ProgramArchive) :
    Nat → Statement → EState → EResult Unit
  | 0, _, s => (.error .OutOfFuel, s)
  | fuel + 1, stmt, s =>
    match stmt with
    | .Block stmts => process_statements arch fuel stmts s
    | .InitializationBlock initializations =>
      process_statements arch fuel initializations s
    | .Declaration xtype name dimensions =>
      -- `DataType::try_from(xtype)?`: the AST embeds the converted data
      -- type, so the conversion is the identity here.
      let data_type := xtype
      bindE (process_expression_list arch fuel dimensions s) (fun dim_access s1 =>
      bindE (readRt (fun rt => get_variable_values rt dim_access) s1) (fun dims s2 =>
      bindE (modifyRt (fun rt => rt.declare_item data_type name dims) s2) (fun _ s3 =>
      if data_type = DataType.Signal then
        if dims.isEmpty then
          bindE (readRt (fun rt => rt.get_signal_id ⟨name, []⟩) s3) (fun signal_id s4 =>
          modifyAc (fun ac => ac.add_signal signal_id) s4)
        else
          match register_signal_loop s3.runtime name dims (prodDims dims + 1)
              (List.replicate dims.length 0) s3.ac with
          | (.error e, ac') => (.error e, { s3 with ac := ac' })
          | (.ok _, ac') => (.ok (), { s3 with ac := ac' })
      else (.ok (), s3))))
    | .While cond stmt =>
      bindE (modifyRt (fun rt => rt.push_context true) s) (fun _ s1 =>
      bindE (while_loop arch fuel cond stmt s1) (fun _ s2 =>
      modifyRt (fun rt => rt.pop_context true) s2))
    | .IfThenElse cond if_case else_case =>
      bindE (process_expression arch fuel cond s) (fun access s1 =>
      bindE (readRt (fun rt => expectValue (rt.get_variable_value access)) s1)
        (fun result s2 =>
      if result = 0 then
        match else_case with
        | some else_statement =>
          bindE (modifyRt (fun rt => rt.push_context true) s2) (fun _ s3 =>
          bindE (process_statement arch fuel else_statement s3) (fun _ s4 =>
          modifyRt (fun rt => rt.pop_context true) s4))
        | none => (.ok (), s2)
      else
        bindE (modifyRt (fun rt => rt.push_context true) s2) (fun _ s3 =>
        bindE (process_statement arch fuel if_case s3) (fun _ s4 =>
        modifyRt (fun rt => rt.pop_context true) s4))))
    | .Substitution var access op rhe =>
      bindE (build_access arch fuel var access s) (fun lh_access s1 =>
      bindE (process_expression arch fuel rhe s1) (fun rh_access s2 =>
      bindE (readRt (fun rt => rt.get_item_data_type var) s2) (fun dt s3 =>
      match dt with
      | .Signal =>
        bindE (readRt (fun rt => rt.get_signal_id lh_access) s3)
          (fun given_output_id s4 =>
        bindE (coerceSignal rh_access s4) (fun gate_output_id s5 =>
        modifyAc (fun ac => ac.add_connection gate_output_id given_output_id) s5))
      | .Variable =>
        bindE (readRt (fun rt => rt.get_variable_value rh_access) s3) (fun value s4 =>
        modifyRt (fun rt => rt.set_variable lh_access value) s4)
      | .Component =>
        match op with
        | .AssignVar =>
          bindE (readRt (fun rt => rt.get_component_map rh_access) s3)
            (fun signal_map s4 =>
          modifyRt (fun rt => rt.set_component lh_access signal_map) s4)
        | .AssignConstraintSignal =>
          bindE (readRt (fun rt => rt.get_component_signal_id lh_access) s3)
            (fun component_signal s4 =>
          bindE (coerceSignal rh_access s4) (fun assigned_signal s5 =>
          modifyAc (fun ac => ac.add_connection assigned_signal component_signal) s5))
        | _ => (.error .OperationNotSupported, s3))))
    | .Return value =>
      bindE (process_expression arch fuel value s) (fun return_access s1 =>
      bindE (readRt (fun rt => expectValue (rt.get_variable_value return_access)) s1)
        (fun return_value s2 =>
      bindE (modifyRt (fun rt => rt.declare_item .Variable RETURN_VAR []) s2)
        (fun _ s3 =>
      modifyRt (fun rt => rt.set_variable ⟨RETURN_VAR, []⟩ (some return_value)) s3)))
    | .MultSubstitution _ _ _ => (.ok (), s)
    | .UnderscoreSubstitution _ _ => (.ok (), s)
    | .ConstraintEquality _ _ => (.ok (), s)
    | .LogCall _ => (.ok (), s)
    | .Assert _ => (.ok (), s)

/-- The body of the `While` arm (src/process.rs:100-114): evaluate the
condition under the loop frame, exit on zero, otherwise run the body under
a second inherited frame and repeat. -/
def while_loop (arch : ProgramArchive) :
    Nat → Expression → Statement → EState → EResult Unit
  | 0, _, _, s => (.error .OutOfFuel, s)
  | fuel + 1, cond, stmt, s =>
    bindE (process_expression arch fuel cond s) (fun access s1 =>
    bindE (readRt (fun rt => expectValue (rt.get_variable_value access)) s1)
      (fun result s2 =>
    if result = 0 then (.ok (), s2)
    else
      bindE (modifyRt (fun rt => rt.push_context true) s2) (fun _ s3 =>
      bindE (process_statement arch fuel stmt s3) (fun _ s4 =>
      bindE (modifyRt (fun rt => rt.pop_context true) s4) (fun _ s5 =>
      while_loop arch fuel cond stmt s5)))))

/-- `process_expression` (src/process.rs:227). -/
def process_expression (arch : ProgramArchive) :
    Nat → Expression → EState → EResult DataAccess
  | 0, _, s => (.error .OutOfFuel, s)
  | fuel + 1, e, s =>
    match e with
    | .Call id args => handle_call arch fuel id args s
    | .InfixOp lhe infix_op rhe => handle_infix_op arch fuel infix_op lhe rhe s
    | .Number value =>
      bindE (modifyRtA (fun rt => rt.declare_random_item .Variable) s)
        (fun access s1 =>
      if value < U32 then
        bindE (modifyRt (fun rt => rt.set_variable access (some value)) s1)
          (fun _ s2 => (.ok access, s2))
      else (.error .ParsingError, s1))
    | .Variable name access => build_access arch fuel name access s
    | .PrefixOp _ => (.ok emptyAccess, s)
    | .InlineSwitchOp _ _ _ => (.ok emptyAccess, s)
    | .ParallelOp _ => (.ok emptyAccess, s)
    | .AnonymousComp _ _ _ => (.ok emptyAccess, s)
    | .ArrayInLine _ => (.ok emptyAccess, s)
    | .Tuple _ => (.ok emptyAccess, s)
    | .UniformArray _ _ => (.ok emptyAccess, s)

/-- The dimension-expression pass of the `Declaration` arm
(src/process.rs:57-60): process each dimension expression, collecting the
accesses. -/
def process_expression_list (arch : ProgramArchive) :
    Nat → List Expression → EState → EResult (List DataAccess)
  | 0, _, s => (.error .OutOfFuel, s)
  | _ + 1, [], s => (.ok [], s)
  | fuel + 1, e :: rest, s =>
    bindE (process_expression arch fuel e s) (fun a s1 =>
    bindE (process_expression_list arch fuel rest s1) (fun as1 s2 =>
    (.ok (a :: as1), s2)))

/-- The argument-evaluation pass of `handle_call` (src/process.rs:330-340):
process each argument expression in the caller frame and resolve its
scalar value, `EmptyDataItem` on an uninitialized one. -/
def eval_call_args (arch : ProgramArchive) :
    Nat → List Expression → EState → EResult (List Nat)
  | 0, _, s => (.error .OutOfFuel, s)
  | _ + 1, [], s => (.ok [], s)
  | fuel + 1, arg :: rest, s =>
    bindE (process_expression arch fuel arg s) (fun value_access s1 =>
    bindE (readRt (fun rt => expectValue (rt.get_variable_value value_access)) s1)
      (fun v s2 =>
    bindE (eval_call_args arch fuel rest s2) (fun vs s3 =>
    (.ok (v :: vs), s3))))

/-- `handle_call` (src/process.rs:305): resolve the id as a function or a
template and run the call. -/
def handle_call (arch : ProgramArchive) :
    Nat → String → List Expression → EState → EResult DataAccess
  | 0, _, _, s => (.error .OutOfFuel, s)
  | fuel + 1, id, args, s =>
    match arch.get_function id with
    | some function_data =>
      handle_call_body arch fuel id true function_data.params function_data.body args s
    | none =>
      match arch.get_template id with
      | some template_data =>
        handle_call_body arch fuel id false template_data.params template_data.body args s
      | none => (.error .UndefinedFunctionOrTemplate, s)

/-- The common tail of `handle_call` (src/process.rs:330-396), after the
callee's parameter names and body have been resolved: evaluate the
arguments, run the body in a fresh frame, gather the return data, pop, and
declare the uniquely-named return item in the caller frame. -/
def handle_call_body (arch : ProgramArchive) :
    Nat → String → Bool → List String → List Statement → List Expression →
    EState → EResult DataAccess
  | 0, _, _, _, _, _, s => (.error .OutOfFuel, s)
  | fuel + 1, id, is_function, arg_names, body, args, s =>
    bindE (eval_call_args arch fuel args s) (fun arg_values s1 =>
    bindE (modifyRt (fun rt => rt.push_context false) s1) (fun _ s2 =>
    bindE (modifyRt (bind_params (List.zip arg_names arg_values)) s2) (fun _ s3 =>
    bindE (process_statements arch fuel body s3) (fun _ s4 =>
    bindE (gather_return arch id is_function s4) (fun ret s5 =>
    bindE (modifyRt (fun rt => rt.pop_context false) s5) (fun _ s6 =>
    bindE (modifyRtA (fun rt => .ok rt.generate_u32) s6) (fun n s7 =>
    let return_access : DataAccess :=
      ⟨id ++ "_" ++ RETURN_VAR ++ "_" ++ Nat.repr n, []⟩
    match ret with
    | .inl function_return =>
      bindE (modifyRt (fun rt => rt.declare_item .Variable return_access.name []) s7)
        (fun _ s8 =>
      bindE (modifyRt (fun rt => rt.set_variable return_access function_return) s8)
        (fun _ s9 => (.ok return_access, s9)))
    | .inr component_return =>
      bindE (modifyRt (fun rt => rt.declare_item .Component return_access.name []) s7)
        (fun _ s8 =>
      bindE (modifyRt (fun rt => rt.set_component return_access component_return) s8)
        (fun _ s9 => (.ok return_access, s9))))))))))

/-- `handle_infix_op` (src/process.rs:403): evaluate both operand
expressions; if both resolve to variables, compute with `execute_op` into
a fresh anonymous variable; otherwise coerce both sides to signal ids,
allocate and register a fresh output signal, and append the gate. -/
def handle_infix_op (arch : ProgramArchive) :
    Nat → ExpressionInfixOpcode → Expression → Expression → EState →
    EResult DataAccess
  | 0, _, _, _, s => (.error .OutOfFuel, s)
  | fuel + 1, op, lhe, rhe, s =>
    bindE (process_expression arch fuel lhe s) (fun lhe_access s1 =>
    bindE (process_expression arch fuel rhe s1) (fun rhe_access s2 =>
    bindE (readRt (fun rt => rt.get_item_data_type lhe_access.name) s2)
      (fun lhs_data_type s3 =>
    bindE (readRt (fun rt => rt.get_item_data_type rhe_access.name) s3)
      (fun rhs_data_type s4 =>
    if lhs_data_type = DataType.Variable ∧ rhs_data_type = DataType.Variable then
      bindE (readRt (fun rt => expectValue (rt.get_variable_value lhe_access)) s4)
        (fun lhs_value s5 =>
      bindE (readRt (fun rt => expectValue (rt.get_variable_value rhe_access)) s5)
        (fun rhs_value s6 =>
      bindE (pureE (execute_op lhs_value rhs_value op) s6) (fun op_res s7 =>
      bindE (modifyRtA (fun rt => rt.declare_random_item .Variable) s7)
        (fun item_access s8 =>
      bindE (modifyRt (fun rt => rt.set_variable item_access (some op_res)) s8)
        (fun _ s9 => (.ok item_access, s9))))))
    else
      bindE (coerceSignal lhe_access s4) (fun lhs_id s5 =>
      bindE (coerceSignal rhe_access s5) (fun rhs_id s6 =>
      bindE (modifyRtA (fun rt => rt.declare_random_item .Signal) s6)
        (fun output_signal s7 =>
      bindE (readRt (fun rt => rt.get_signal_id output_signal) s7)
        (fun output_id s8 =>
      bindE (modifyAc (fun ac => ac.add_signal output_id) s8) (fun _ s9 =>
      bindE (modifyAc (fun ac =>
          ac.add_gate (AGateType.fromOp op) lhs_id rhs_id output_id) s9)
        (fun _ s10 => (.ok output_signal, s10)))))))))))

/-- `build_access` (src/process.rs:474): build a `DataAccess` from the
syntactic access chain, evaluating every array-index expression. -/
def build_access (arch : ProgramArchive) :
    Nat → String → List Access → EState → EResult DataAccess
  | 0, _, _, s => (.error .OutOfFuel, s)
  | fuel + 1, name, access, s =>
    bindE (build_access_vec arch fuel access s) (fun access_vec s1 =>
    (.ok ⟨name, access_vec⟩, s1))

/-- The loop of `build_access` (src/process.rs:483-497), over the
syntactic access chain. -/
def build_access_vec (arch : ProgramArchive) :
    Nat → List Access → EState → EResult (List SubAccess)
  | 0, _, s => (.error .OutOfFuel, s)
  | _ + 1, [], s => (.ok [], s)
  | fuel + 1, .ArrayAccess e :: rest, s =>
    bindE (process_expression arch fuel e s) (fun index_access s1 =>
    bindE (readRt (fun rt => expectValue (rt.get_variable_value index_access)) s1)
      (fun index s2 =>
    bindE (build_access_vec arch fuel rest s2) (fun tail s3 =>
    (.ok (.Array index :: tail), s3))))
  | fuel + 1, .ComponentAccess sigName :: rest, s =>
    bindE (build_access_vec arch fuel rest s) (fun tail s1 =>
    (.ok (.Component sigName :: tail), s1))

end

/-! ## Predicates used by the theorems -/

/-- `c'` extends `c`: every store of the circuit is extended append-only. -/
def circuitExtends (c c' : ArithmeticCircuit) : Prop :=
  (∃ t, c'.signals = c.signals ++ t) ∧
  (∃ t, c'.gates = c.gates ++ t) ∧
  (∃ t, c'.connections = c.connections ++ t)

/-- The name currently resolves to an item of type `Variable`. -/
def isVarName (rt : Runtime) (name : String) : Bool :=
  match rt.get_item_data_type name with
  | .ok .Variable => true
  | _ => false

mutual

/-- The expression is built only from constants and variables: number
literals, names currently typed `Variable` (with constant-and-variable
index expressions), and infix operations thereof. -/
def constVarExpr (rt : Runtime) : Expression → Bool
  | .Number _ => true
  | .Variable name access => isVarName rt name && constVarAccessVec rt access
  | .InfixOp lhe _ rhe => constVarExpr rt lhe && constVarExpr rt rhe
  | _ => false

/-- Every array index of the chain is a constant-and-variable expression
(component sub-accesses are not variable accesses). -/
def constVarAccessVec (rt : Runtime) : List Access → Bool
  | [] => true
  | .ArrayAccess e :: rest => constVarExpr rt e && constVarAccessVec rt rest
  | .ComponentAccess _ :: _ => false

end

/-- `rt'` preserves the variable-typed names of `rt`. -/
def varPreserved (rt rt' : Runtime) : Prop :=
  ∀ name, isVarName rt name = true → isVarName rt' name = true

/-- The item table of the current (top) frame; empty when the stack is
empty. -/
def currentFrameItems (rt : Runtime) : List (String × Item) :=
  match rt.frames with
  | [] => []
  | c :: _ => c.items

/-! ## Concrete fixtures (used by witnesses and counterexamples) -/

/-- The empty circuit. -/
def acEmpty : ArithmeticCircuit := ⟨[], [], []⟩

/-- The initial runtime: one fresh frame, signal ids from 1, name counter
at 0. -/
def rtInit : Runtime := ⟨[⟨false, []⟩], 1, 0⟩

/-- Initial interpreter state. -/
def stInit : EState := ⟨acEmpty, rtInit⟩

/-- The empty program archive. -/
def archEmpty : ProgramArchive := ⟨[], []⟩

/-- A runtime whose single frame holds the scalar variable `x` with value
`5`. -/
def rtVarX : Runtime := ⟨[⟨false, [("x", .varItem [] [some 5])]⟩], 1, 0⟩

/-- Access to the scalar `x`. -/
def xAccess : DataAccess := { name := "x", access := [] }

/-- `rtInit` after declaring one anonymous variable (the state left by a
`Number` literal that fails the 32-bit check). -/
def rtAnon0 : Runtime := ⟨[⟨false, [("random_0", .varItem [] [none])]⟩], 1, 1⟩

/-- The first synthetic anonymous access generated from `rtInit`. -/
def anonAcc0 : DataAccess := { name := "random_0", access := [] }

/-- The second synthetic anonymous access. -/
def anonAcc1 : DataAccess := { name := "random_1", access := [] }

/-- The state after processing `return 1;` from `stInit`: the anonymous
literal holder and the reserved `RETURN` variable are declared. -/
def stC8Mid : EState :=
  ⟨acEmpty, ⟨[⟨false, [("random_0", .varItem [] [some 1]),
    ("RETURN", .varItem [] [some 1])]⟩], 1, 1⟩⟩

/-- The state reached when a second `return 2;` fails: the literal `2` has
been evaluated into a fresh anonymous variable, then the re-declaration of
`RETURN` was refused. -/
def stC8After : EState :=
  ⟨acEmpty, ⟨[⟨false, [("random_0", .varItem [] [some 1]),
    ("RETURN", .varItem [] [some 1]),
    ("random_1", .varItem [] [some 2])]⟩], 1, 2⟩⟩

/-- The state after evaluating the dimension expressions `[2, 3]` from
`stInit`. -/
def stC3Dims : EState :=
  ⟨acEmpty, ⟨[⟨false, [("random_0", .varItem [] [some 2]),
    ("random_1", .varItem [] [some 3])]⟩], 1, 2⟩⟩

/-- `stC3Dims`'s runtime after declaring the signal `s[2][3]`: six dense
leaf ids `1..6`. -/
def rtC3Decl : Runtime :=
  ⟨[⟨false, [("random_0", .varItem [] [some 2]),
    ("random_1", .varItem [] [some 3]),
    ("s", .sigItem ⟨[2, 3], [1, 2, 3, 4, 5, 6]⟩)]⟩], 7, 2⟩

/-- State after evaluating the literal `2` from `stInit`. -/
def stC1a : EState :=
  ⟨acEmpty, ⟨[⟨false, [("random_0", .varItem [] [some 2])]⟩], 1, 1⟩⟩

/-- State after evaluating the literals `2` and `3` from `stInit`. -/
def stC1b : EState :=
  ⟨acEmpty, ⟨[⟨false, [("random_0", .varItem [] [some 2]),
    ("random_1", .varItem [] [some 3])]⟩], 1, 2⟩⟩

/-- The third synthetic anonymous access. -/
def anonAcc2 : DataAccess := { name := "random_2", access := [] }

/-- `stC1b`'s runtime after declaring the anonymous result variable. -/
def rtC1decl : Runtime :=
  ⟨[⟨false, [("random_0", .varItem [] [some 2]),
    ("random_1", .varItem [] [some 3]),
    ("random_2", .varItem [] [none])]⟩], 1, 3⟩

/-- Final state of evaluating `2 + 3`: the anonymous result variable holds
`5` and the circuit is untouched. -/
def stC1c : EState :=
  ⟨acEmpty, ⟨[⟨false, [("random_0", .varItem [] [some 2]),
    ("random_1", .varItem [] [some 3]),
    ("random_2", .varItem [] [some 5])]⟩], 1, 3⟩⟩

/-- A state with a single scalar signal `x` (id 1) registered. -/
def stSigX : EState :=
  ⟨⟨[1], [], []⟩, ⟨[⟨false, [("x", .sigItem ⟨[], [1]⟩)]⟩], 2, 0⟩⟩

/-- `stSigX`'s runtime after declaring the anonymous output signal
(id 2). -/
def rtSigXdecl : Runtime :=
  ⟨[⟨false, [("x", .sigItem ⟨[], [1]⟩),
    ("random_0", .sigItem ⟨[], [2]⟩)]⟩], 3, 1⟩

/-- Archive with one function: `f() { return 7; }`. -/
def arch5 : ProgramArchive := ⟨[("f", ⟨[], [.Return (.Number 7)]⟩)], []⟩

/-- The fresh callee frame pushed over `stInit` by a call. -/
def rtPush5 : Runtime := ⟨[⟨false, []⟩, ⟨false, []⟩], 1, 0⟩

/-- The state after running `f`'s body in the callee frame: the anonymous
literal holder and `RETURN = 7`. -/
def st5Body : EState :=
  ⟨acEmpty, ⟨[⟨false, [("random_0", .varItem [] [some 7]),
    ("RETURN", .varItem [] [some 7])]⟩, ⟨false, []⟩], 1, 1⟩⟩

/-- The state after evaluating `return 1;`'s operand from `stInit`. -/
def st5Ret : EState :=
  ⟨acEmpty, ⟨[⟨false, [("random_0", .varItem [] [some 1])]⟩], 1, 1⟩⟩

/-- `st5Ret`'s runtime after declaring `RETURN`. -/
def rt5RetDecl : Runtime :=
  ⟨[⟨false, [("random_0", .varItem [] [some 1]),
    ("RETURN", .varItem [] [none])]⟩], 1, 1⟩

/-- C7 counterexample statement: an `if` whose condition is the signal
expression `x + x` — processing the condition appends a gate and an output
signal to the circuit, and only then the branch dispatch fails
`NotAVariable` when it reads the resulting signal access as a value. -/
def stmtC7 : Statement :=
  .IfThenElse (.InfixOp (.Variable ("x") []) .Add (.Variable ("x") [])) (.Block []) none

/-! ## Theorems -/

/-- Auxiliary: `a % b = a - b * (a / b)` over `Nat`. -/
theorem nat_mod_eq_sub (a b : Nat) : a % b = a - b * (a / b) := by
  have h := Nat.mod_add_div a b
  omega

/-- **C2.** For all `a, b ∈ [0, 2³²)`: `execute_op` with `Div`, `IntDiv`
or `Mod` returns `OperationError` if and only if `b = 0`; when `b ≠ 0`,
`Div(a,b) = IntDiv(a,b) = ⌊a/b⌋` and `Mod(a,b) = a - b·⌊a/b⌋`. -/
theorem execute_op_div_intdiv_mod_spec (a b : Nat) (_ha : a < U32) (_hb : b < U32) :
    ((∃ msg, execute_op a b .Div = .error (.OperationError msg)) ↔ b = 0) ∧
    ((∃ msg, execute_op a b .IntDiv = .error (.OperationError msg)) ↔ b = 0) ∧
    ((∃ msg, execute_op a b .Mod = .error (.OperationError msg)) ↔ b = 0) ∧
    (b ≠ 0 →
      execute_op a b .Div = .ok (a / b) ∧
      execute_op a b .IntDiv = .ok (a / b) ∧
      execute_op a b .Mod = .ok (a - b * (a / b))) := by
  by_cases hb : b = 0
  · subst hb
    refine ⟨?_, ?_, ?_, ?_⟩ <;> simp [execute_op]
  · refine ⟨?_, ?_, ?_, ?_⟩
    · simp [execute_op, hb]
    · simp [execute_op, hb]
    · simp [execute_op, hb]
    · intro _
      refine ⟨by simp [execute_op, hb], by simp [execute_op, hb], ?_⟩
      simp [execute_op, hb, nat_mod_eq_sub]

/-- Witness for C2 at `a = 7`, `b = 2` (and the error side at `b = 0`). -/
theorem execute_op_div_intdiv_mod_spec_witness :
    (execute_op 7 2 .Div = .ok (7 / 2) ∧
     execute_op 7 2 .IntDiv = .ok (7 / 2) ∧
     execute_op 7 2 .Mod = .ok (7 - 2 * (7 / 2))) ∧
    ((∃ msg, execute_op 7 0 .Div = .error (.OperationError msg)) ↔ (0 : Nat) = 0) :=
  ⟨(execute_op_div_intdiv_mod_spec 7 2 (by decide) (by decide)).2.2.2 (by decide),
   (execute_op_div_intdiv_mod_spec 7 0 (by decide) (by decide)).1⟩

/-- **C6.** For all `a, b ∈ [0, 2³²)`: the shifts use only the low-order
bits of `b` — `ShiftL(a,b) = a · 2^(b mod 32) mod 2³²` and
`ShiftR(a,b) = ⌊a / 2^(b mod 32)⌋` — and in particular they return a value
(`.ok`) for every `b`, including `b ≥ 32`, with the result depending on
`b` only through `b mod 32`. -/
theorem execute_op_shift_spec (a b : Nat) (_ha : a < U32) (_hb : b < U32) :
    execute_op a b .ShiftL = .ok ((a * 2 ^ (b % 32)) % U32) ∧
    execute_op a b .ShiftR = .ok (a / 2 ^ (b % 32)) ∧
    execute_op a b .ShiftL = execute_op a (b % 32) .ShiftL ∧
    execute_op a b .ShiftR = execute_op a (b % 32) .ShiftR := by
  have hmm : b % 32 % 32 = b % 32 :=
    Nat.mod_eq_of_lt (Nat.mod_lt _ (by norm_num))
  refine ⟨?_, ?_, ?_, ?_⟩ <;>
    simp [execute_op, Nat.shiftLeft_eq, Nat.shiftRight_eq_div_pow, hmm]

/-- Witness for C6 at `a = 5`, `b = 35` (a shift amount past the bit
width). -/
theorem execute_op_shift_spec_witness :
    execute_op 5 35 .ShiftL = .ok ((5 * 2 ^ (35 % 32)) % U32) ∧
    execute_op 5 35 .ShiftR = .ok (5 / 2 ^ (35 % 32)) ∧
    execute_op 5 35 .ShiftL = execute_op 5 (35 % 32) .ShiftL ∧
    execute_op 5 35 .ShiftR = execute_op 5 (35 % 32) .ShiftR :=
  execute_op_shift_spec 5 35 (by decide) (by decide)

/-- **C4.** For every access naming an item of type `Variable`:
`get_signal_for_access` fails with `EmptyDataItem` when the addressed leaf
is uninitialized; otherwise, for leaf value `v`, it calls `add_const v` on
the circuit and returns `v` itself as the signal id (so the constant
signal's id equals its value, and `v` is registered afterwards). -/
theorem get_signal_for_access_variable_spec (ac : ArithmeticCircuit) (rt : Runtime)
    (access : DataAccess) (h : rt.get_item_data_type access.name = .ok .Variable) :
    (rt.get_variable_value access = .ok none →
      get_signal_for_access ac rt access = .error .EmptyDataItem) ∧
    (∀ v, rt.get_variable_value access = .ok (some v) →
      ∃ ac', ac.add_const v = .ok ac' ∧
        get_signal_for_access ac rt access = .ok (v, ac') ∧
        v ∈ ac'.signals) := by
  constructor
  · intro hv
    simp [get_signal_for_access, h, hv]
  · intro v hv
    unfold ArithmeticCircuit.add_const
    by_cases hmem : v ∈ ac.signals
    · exact ⟨ac, by simp [hmem], by simp [get_signal_for_access, h, hv,
        ArithmeticCircuit.add_const, hmem], hmem⟩
    · refine ⟨{ ac with signals := ac.signals ++ [v] }, by simp [hmem], ?_, by simp⟩
      simp [get_signal_for_access, h, hv, ArithmeticCircuit.add_const, hmem]

/-- Witness for C4: variable `x = 5` over the empty circuit. -/
theorem get_signal_for_access_variable_spec_witness :
    ∃ ac', acEmpty.add_const 5 = .ok ac' ∧
      get_signal_for_access acEmpty rtVarX xAccess = .ok (5, ac') ∧
      5 ∈ ac'.signals :=
  (get_signal_for_access_variable_spec acEmpty rtVarX xAccess (by decide)).2 5 (by decide)

/-! ### Runtime lemmas -/

/-- A lookup succeeds exactly when the key is present. -/
theorem lookupItem_isSome_iff (items : List (String × Item)) (m : String) :
    (lookupItem items m).isSome = true ↔ m ∈ items.map Prod.fst := by
  induction items with
  | nil => simp [lookupItem]
  | cons p rest ih =>
    obtain ⟨n, it⟩ := p
    by_cases hn : n = m
    · subst hn; simp [lookupItem]
    · simp only [lookupItem, if_neg hn, List.map_cons, List.mem_cons, ih]
      constructor
      · intro h; exact Or.inr h
      · rintro (h | h)
        · exact absurd h.symm hn
        · exact h

/-- Appending a fresh binding makes it visible. -/
theorem lookupItem_append_self (items : List (String × Item)) (name : String) (it : Item)
    (h : lookupItem items name = none) :
    lookupItem (items ++ [(name, it)]) name = some it := by
  induction items with
  | nil => simp [lookupItem]
  | cons p rest ih =>
    obtain ⟨n, a⟩ := p
    by_cases hn : n = name
    · simp [lookupItem, hn] at h
    · simp only [lookupItem, if_neg hn, List.cons_append] at h ⊢
      exact ih h

/-- Appending a binding does not shadow earlier ones nor other names. -/
theorem lookupItem_append_of_ne (items : List (String × Item)) (name m : String)
    (it : Item) (h : name ≠ m) :
    lookupItem (items ++ [(name, it)]) m = lookupItem items m := by
  induction items with
  | nil => simp [lookupItem, h]
  | cons p rest ih =>
    obtain ⟨n, a⟩ := p
    by_cases hn : n = m
    · simp [lookupItem, hn]
    · simp only [lookupItem, if_neg hn, List.cons_append] at ih ⊢
      exact ih

/-- In-place item update keeps the key list. -/
theorem updateItems_keys (items : List (String × Item)) (name : String)
    (f : Item → Except ProgramError Item) (items' : List (String × Item))
    (h : updateInFrames.updateItems items name f = .ok items') :
    items'.map Prod.fst = items.map Prod.fst := by
  induction items generalizing items' with
  | nil => simp [updateInFrames.updateItems] at h
  | cons p rest ih =>
    obtain ⟨n, it⟩ := p
    unfold updateInFrames.updateItems at h
    split at h
    · split at h
      · exact absurd h (by simp)
      · obtain rfl : _ = items' := by
          simpa using h
        simp
    · split at h
      · exact absurd h (by simp)
      · rename_i rest' hrest
        obtain rfl : _ = items' := by
          simpa using h
        simp [ih rest' hrest]

/-- Updating the freshly appended binding. -/
theorem updateItems_append_self (items : List (String × Item)) (name : String)
    (it it' : Item) (f : Item → Except ProgramError Item)
    (hl : lookupItem items name = none) (hf : f it = .ok it') :
    updateInFrames.updateItems (items ++ [(name, it)]) name f =
      .ok (items ++ [(name, it')]) := by
  induction items with
  | nil => simp [updateInFrames.updateItems, hf]
  | cons p rest ih =>
    obtain ⟨n, a⟩ := p
    by_cases hn : n = name
    · simp [lookupItem, hn] at hl
    · simp only [lookupItem, if_neg hn] at hl
      simp only [List.cons_append]
      unfold updateInFrames.updateItems
      rw [if_neg hn, ih hl]

/-- `updateInFrames` when the name is bound in the top frame. -/
theorem updateInFrames_head_found (c : Context) (rest : List Context) (name : String)
    (f : Item → Except ProgramError Item) (items' : List (String × Item)) (it : Item)
    (hsome : lookupItem c.items name = some it)
    (hupd : updateInFrames.updateItems c.items name f = .ok items') :
    updateInFrames (c :: rest) name f = .ok ({ c with items := items' } :: rest) := by
  unfold updateInFrames
  rw [hsome, hupd]

/-- A successful `updateInFrames` keeps the shape and keys of the top
frame. -/
theorem updateInFrames_head_shape (c : Context) (rest : List Context) (name : String)
    (f : Item → Except ProgramError Item) (frames' : List Context)
    (h : updateInFrames (c :: rest) name f = .ok frames') :
    ∃ c' rest', frames' = c' :: rest' ∧
      c'.items.map Prod.fst = c.items.map Prod.fst ∧
      c'.inherited = c.inherited := by
  unfold updateInFrames at h
  split at h
  · split at h
    · exact absurd h (by simp)
    · rename_i items' hu
      obtain rfl : _ = frames' := by simpa using h
      exact ⟨_, _, rfl, updateItems_keys _ _ _ _ hu, rfl⟩
  · split at h
    · split at h
      · exact absurd h (by simp)
      · rename_i rest' hr
        obtain rfl : _ = frames' := by simpa using h
        exact ⟨c, rest', rfl, rfl, rfl⟩
    · exact absurd h (by simp)

/-- A successful `set_variable` keeps the key list of the top frame and
the counters. -/
theorem set_variable_head_keys (rt : Runtime) (a : DataAccess) (v : Option Nat)
    (rt' : Runtime) (h : rt.set_variable a v = .ok rt') :
    (currentFrameItems rt').map Prod.fst = (currentFrameItems rt).map Prod.fst ∧
    rt'.signalCounter = rt.signalCounter ∧ rt'.nameCounter = rt.nameCounter := by
  unfold Runtime.set_variable at h
  cases hu : updateInFrames rt.frames a.name _ with
  | error e => rw [hu] at h; exact absurd h (by simp)
  | ok frames' =>
    rw [hu] at h
    obtain rfl : _ = rt' := by simpa using h
    cases hf : rt.frames with
    | nil => rw [hf] at hu; exact absurd hu (by simp [updateInFrames])
    | cons c rest =>
      rw [hf] at hu
      obtain ⟨c', rest', rfl, hkeys, _⟩ := updateInFrames_head_shape _ _ _ _ _ hu
      exact ⟨by simpa [currentFrameItems, hf] using hkeys, rfl, rfl⟩

/-- Inversion of `declare_item` for a scalar variable. -/
theorem declare_item_var_scalar_inv (rt : Runtime) (name : String) (rt1 : Runtime)
    (h : rt.declare_item .Variable name [] = .ok rt1) :
    ∃ c rest, rt.frames = c :: rest ∧ lookupItem c.items name = none ∧
      rt1 = { rt with frames :=
        { c with items := c.items ++ [(name, .varItem [] [none])] } :: rest } := by
  unfold Runtime.declare_item at h
  split at h
  · exact absurd h (by simp)
  · rename_i c rest hf
    split at h
    · exact absurd h (by simp)
    · rename_i hl
      refine ⟨c, rest, hf, hl, ?_⟩
      simp only [prodDims, List.replicate] at h
      simpa using h.symm

/-- Inversion of `declare_item` for a scalar signal: one dense id is
allocated from the signal counter. -/
theorem declare_item_sig_scalar_inv (rt : Runtime) (name : String) (rt1 : Runtime)
    (h : rt.declare_item .Signal name [] = .ok rt1) :
    ∃ c rest, rt.frames = c :: rest ∧ lookupItem c.items name = none ∧
      rt1 = ⟨{ c with items :=
          c.items ++ [(name, .sigItem ⟨[], [rt.signalCounter]⟩)] } :: rest,
        rt.signalCounter + 1, rt.nameCounter⟩ := by
  unfold Runtime.declare_item at h
  split at h
  · exact absurd h (by simp)
  · rename_i c rest hf
    split at h
    · exact absurd h (by simp)
    · rename_i hl
      refine ⟨c, rest, hf, hl, ?_⟩
      simp only [prodDims, List.range'] at h
      simpa using h.symm

/-- Inversion of `declare_random_item` for a variable. -/
theorem declare_random_item_var_inv (rt : Runtime) (acc : DataAccess) (rt' : Runtime)
    (h : rt.declare_random_item .Variable = .ok (acc, rt')) :
    acc = ⟨"random_" ++ Nat.repr rt.nameCounter, []⟩ ∧
    ∃ c rest, rt.frames = c :: rest ∧ lookupItem c.items acc.name = none ∧
      rt' = ⟨{ c with items := c.items ++ [(acc.name, .varItem [] [none])] } :: rest,
        rt.signalCounter, rt.nameCounter + 1⟩ := by
  unfold Runtime.declare_random_item at h
  split at h
  · exact absurd h (by simp)
  · rename_i rt2 hd
    obtain ⟨rfl, rfl⟩ : (⟨"random_" ++ Nat.repr rt.nameCounter, []⟩ : DataAccess) = acc ∧
        rt2 = rt' := by
      simpa [Prod.ext_iff] using h
    obtain ⟨c, rest, hf, hl, hrt⟩ := declare_item_var_scalar_inv _ _ _ hd
    refine ⟨rfl, c, rest, by simpa using hf, hl, ?_⟩
    rw [hrt]

/-- Inversion of `declare_random_item` for a signal. -/
theorem declare_random_item_sig_inv (rt : Runtime) (acc : DataAccess) (rt' : Runtime)
    (h : rt.declare_random_item .Signal = .ok (acc, rt')) :
    acc = ⟨"random_" ++ Nat.repr rt.nameCounter, []⟩ ∧
    ∃ c rest, rt.frames = c :: rest ∧ lookupItem c.items acc.name = none ∧
      rt' = ⟨{ c with items :=
          c.items ++ [(acc.name, .sigItem ⟨[], [rt.signalCounter]⟩)] } :: rest,
        rt.signalCounter + 1, rt.nameCounter + 1⟩ := by
  unfold Runtime.declare_random_item at h
  split at h
  · exact absurd h (by simp)
  · rename_i rt2 hd
    obtain ⟨rfl, rfl⟩ : (⟨"random_" ++ Nat.repr rt.nameCounter, []⟩ : DataAccess) = acc ∧
        rt2 = rt' := by
      simpa [Prod.ext_iff] using h
    obtain ⟨c, rest, hf, hl, hrt⟩ := declare_item_sig_scalar_inv _ _ _ hd
    refine ⟨rfl, c, rest, by simpa using hf, hl, ?_⟩
    rw [hrt]

/-- A binding in the top frame wins the visible-frame resolution. -/
theorem findItem_head_some (c : Context) (rest : List Context) (name : String)
    (it : Item) (hl : lookupItem c.items name = some it) :
    findItem (visibleFrames (c :: rest)) name = some it := by
  unfold visibleFrames
  split <;> simp [findItem, hl]

/-- Reading a scalar variable bound in the top frame. -/
theorem get_variable_value_head_scalar (rt : Runtime) (c : Context) (rest : List Context)
    (name : String) (v : Option Nat)
    (hf : rt.frames = c :: rest)
    (hl : lookupItem c.items name = some (.varItem [] [v])) :
    rt.get_variable_value ⟨name, []⟩ = .ok v := by
  unfold Runtime.get_variable_value
  rw [hf, findItem_head_some c rest name _ hl]
  simp [arrayIndices, validIndices, rowMajorIndex]

/-- Reading the id of a scalar signal bound in the top frame. -/
theorem get_signal_id_head_scalar (rt : Runtime) (c : Context) (rest : List Context)
    (name : String) (id : Nat)
    (hf : rt.frames = c :: rest)
    (hl : lookupItem c.items name = some (.sigItem ⟨[], [id]⟩)) :
    rt.get_signal_id ⟨name, []⟩ = .ok id := by
  unfold Runtime.get_signal_id
  rw [hf, findItem_head_some c rest name _ hl]
  simp [arrayIndices, validIndices, rowMajorIndex]

/-- The data type of a name bound in the top frame. -/
theorem get_item_data_type_head (rt : Runtime) (c : Context) (rest : List Context)
    (name : String) (it : Item)
    (hf : rt.frames = c :: rest)
    (hl : lookupItem c.items name = some it) :
    rt.get_item_data_type name = .ok it.dataType := by
  unfold Runtime.get_item_data_type
  rw [hf, findItem_head_some c rest name _ hl]
  cases it <;> simp [Item.dataType]

/-- Setting the scalar variable just declared in the top frame succeeds
and updates exactly its leaf. -/
theorem set_after_declare_scalar (rt : Runtime) (c : Context) (rest : List Context)
    (name : String) (w : Option Nat) (v : Option Nat)
    (hf : rt.frames = { c with items := c.items ++ [(name, .varItem [] [w])] } :: rest)
    (hl : lookupItem c.items name = none) :
    rt.set_variable ⟨name, []⟩ v =
      .ok { rt with frames :=
        { c with items := c.items ++ [(name, .varItem [] [v])] } :: rest } := by
  unfold Runtime.set_variable
  rw [hf]
  rw [updateInFrames_head_found _ _ _ _ _ _
    (lookupItem_append_self c.items name _ hl)
    (updateItems_append_self c.items name (.varItem [] [w]) (.varItem [] [v]) _ hl (by
      simp [arrayIndices, validIndices, rowMajorIndex, List.set]))]

/-- **C10.** A `Number` literal whose value does not fit in 32 bits makes
`process_expression` return `ParsingError`, but only after declaring a
fresh anonymous variable in the current context: the circuit is untouched,
yet the context mutation survives the error — one extra uninitialized
anonymous variable remains in the current frame. -/
theorem process_expression_number_overflow_spec (arch : ProgramArchive) (fuel : Nat)
    (value : Nat) (s : EState) (acc : DataAccess) (rt1 : Runtime)
    (hv : U32 ≤ value)
    (hdecl : s.runtime.declare_random_item .Variable = .ok (acc, rt1)) :
    process_expression arch (fuel + 1) (.Number value) s =
      (.error .ParsingError, { s with runtime := rt1 }) ∧
    lookupItem (currentFrameItems s.runtime) acc.name = none ∧
    currentFrameItems rt1 = currentFrameItems s.runtime ++ [(acc.name, .varItem [] [none])] ∧
    rt1.get_variable_value acc = .ok none ∧
    rt1.get_item_data_type acc.name = .ok .Variable := by
  obtain ⟨hacc, c, rest, hf, hl, hrt⟩ := declare_random_item_var_inv _ _ _ hdecl
  refine ⟨?_, ?_, ?_, ?_, ?_⟩
  · simp only [process_expression, modifyRtA, hdecl, bindE]
    rw [if_neg (by omega)]
  · simp [currentFrameItems, hf, hl]
  · simp [currentFrameItems, hf, hrt]
  · subst hacc
    subst hrt
    exact get_variable_value_head_scalar _
      ⟨c.inherited, c.items ++
        [("random_" ++ Nat.repr s.runtime.nameCounter, Item.varItem [] [none])]⟩
      rest ("random_" ++ Nat.repr s.runtime.nameCounter) none rfl
      (lookupItem_append_self _ _ _ hl)
  · subst hacc
    subst hrt
    exact get_item_data_type_head _
      ⟨c.inherited, c.items ++
        [("random_" ++ Nat.repr s.runtime.nameCounter, Item.varItem [] [none])]⟩
      rest ("random_" ++ Nat.repr s.runtime.nameCounter) (.varItem [] [none]) rfl
      (lookupItem_append_self _ _ _ hl)

/-- Witness for C10: the literal `2 ^ 32` from the initial state. -/
theorem process_expression_number_overflow_spec_witness :
    process_expression archEmpty 3 (.Number U32) stInit =
      (.error .ParsingError, { stInit with runtime := rtAnon0 }) ∧
    lookupItem (currentFrameItems stInit.runtime) anonAcc0.name = none ∧
    currentFrameItems rtAnon0 =
      currentFrameItems stInit.runtime ++ [(anonAcc0.name, .varItem [] [none])] ∧
    rtAnon0.get_variable_value anonAcc0 = .ok none ∧
    rtAnon0.get_item_data_type anonAcc0.name = .ok .Variable :=
  process_expression_number_overflow_spec archEmpty 2 U32 stInit anonAcc0 rtAnon0
    (le_refl _) (by decide)

/-- **C8.** Each `Return` statement unconditionally declares the reserved
`RETURN` variable anew in the current frame: a successful `Return` leaves
`RETURN` declared there, and a `Return` processed while `RETURN` is
already declared in the current frame — e.g. the second of two sequential
`Return` statements — fails with `AlreadyDeclared`. -/
theorem return_redeclares_spec (arch : ProgramArchive) :
    (∀ fuel value s s',
      process_statement arch (fuel + 1) (.Return value) s = (.ok (), s') →
      (lookupItem (currentFrameItems s'.runtime) RETURN_VAR).isSome = true) ∧
    (∀ fuel value s acc s1 v,
      process_expression arch fuel value s = (.ok acc, s1) →
      s1.runtime.get_variable_value acc = .ok (some v) →
      (lookupItem (currentFrameItems s1.runtime) RETURN_VAR).isSome = true →
      process_statement arch (fuel + 1) (.Return value) s =
        (.error .AlreadyDeclared, s1)) := by
  constructor
  · intro fuel value s s' h
    simp only [process_statement] at h
    rcases hpe : process_expression arch fuel value s with ⟨r, s1⟩
    rw [hpe] at h
    cases r with
    | error e => simp [bindE] at h
    | ok acc =>
      simp only [bindE, readRt] at h
      cases hev : expectValue (s1.runtime.get_variable_value acc) with
      | error e => rw [hev] at h; simp [bindE] at h
      | ok v =>
        rw [hev] at h
        simp only [bindE, modifyRt] at h
        cases hd : s1.runtime.declare_item .Variable RETURN_VAR [] with
        | error e => rw [hd] at h; simp at h
        | ok rt2 =>
          rw [hd] at h
          simp only [modifyRt] at h
          cases hsv : rt2.set_variable ⟨RETURN_VAR, []⟩ (some v) with
          | error e => rw [hsv] at h; simp at h
          | ok rt3 =>
            rw [hsv] at h
            simp only [Prod.mk.injEq] at h
            obtain ⟨-, hs'⟩ := h
            obtain ⟨c, rest, hf, hl, hrt⟩ := declare_item_var_scalar_inv _ _ _ hd
            have hkeys := (set_variable_head_keys _ _ _ _ hsv).1
            have hmem : RETURN_VAR ∈ (currentFrameItems rt2).map Prod.fst := by
              subst hrt
              simp [currentFrameItems]
            rw [← hs']
            show (lookupItem (currentFrameItems rt3) RETURN_VAR).isSome = true
            rw [lookupItem_isSome_iff, hkeys]
            exact hmem
  · intro fuel value s acc s1 v h1 h2 h3
    have hframe : ∃ c rest, s1.runtime.frames = c :: rest ∧
        (lookupItem c.items RETURN_VAR).isSome = true := by
      cases hfr : s1.runtime.frames with
      | nil => rw [lookupItem_isSome_iff] at h3; simp [currentFrameItems, hfr] at h3
      | cons c rest => exact ⟨c, rest, rfl, by simpa [currentFrameItems, hfr] using h3⟩
    obtain ⟨c, rest, hfr, hsome⟩ := hframe
    obtain ⟨it, hl⟩ := Option.isSome_iff_exists.mp hsome
    have hdecl : s1.runtime.declare_item .Variable RETURN_VAR [] =
        .error .AlreadyDeclared := by
      simp [Runtime.declare_item, hfr, hl]
    simp only [process_statement]
    rw [h1]
    simp only [bindE, readRt]
    rw [h2]
    simp only [expectValue, bindE, modifyRt]
    rw [hdecl]

/-- Witness for C8: `return 1; return 2;` from the initial state — the
first `Return` declares `RETURN`, the second fails `AlreadyDeclared`. -/
theorem return_redeclares_spec_witness :
    (lookupItem (currentFrameItems stC8Mid.runtime) RETURN_VAR).isSome = true ∧
    process_statement archEmpty 5 (.Return (.Number 2)) stC8Mid =
      (.error .AlreadyDeclared, stC8After) :=
  ⟨(return_redeclares_spec archEmpty).1 4 (.Number 1) stInit stC8Mid (by decide),
   (return_redeclares_spec archEmpty).2 4 (.Number 2) stC8Mid anonAcc1 stC8After 2
     (by decide) (by decide) (by decide)⟩

/-! ### Row-major enumeration lemmas (for the signal-declaration loop) -/

/-- A positive shape has a positive leaf count. -/
theorem prodDims_pos (dims : List Nat) (h : ∀ d ∈ dims, 0 < d) :
    0 < prodDims dims := by
  induction dims with
  | nil => simp [prodDims]
  | cons d ds ih =>
    simp only [prodDims]
    exact Nat.mul_pos (h d (by simp)) (ih (fun x hx => h x (by simp [hx])))

/-- The row-major rank of a valid index tuple is below the leaf count. -/
theorem rowMajorIndex_lt_prodDims (dims idx : List Nat)
    (h : validIndices dims idx = true) :
    rowMajorIndex dims idx < prodDims dims := by
  induction dims generalizing idx with
  | nil =>
    cases idx with
    | nil => simp [rowMajorIndex, prodDims]
    | cons i is => simp [validIndices] at h
  | cons d ds ih =>
    cases idx with
    | nil => simp [validIndices] at h
    | cons i is =>
      simp only [validIndices, Bool.and_eq_true, decide_eq_true_eq] at h
      obtain ⟨hi, hv⟩ := h
      have hr := ih is hv
      simp only [rowMajorIndex, prodDims]
      calc i * prodDims ds + rowMajorIndex ds is
          < i * prodDims ds + prodDims ds := by omega
        _ = (i + 1) * prodDims ds := by ring
        _ ≤ d * prodDims ds := Nat.mul_le_mul_right _ (by omega)

/-- The all-zero tuple of a positive shape is valid. -/
theorem validIndices_zeros (dims : List Nat) (h : ∀ d ∈ dims, 0 < d) :
    validIndices dims (List.replicate dims.length 0) = true := by
  induction dims with
  | nil => simp [validIndices]
  | cons d ds ih =>
    simp only [List.length_cons, List.replicate, validIndices, Bool.and_eq_true,
      decide_eq_true_eq]
    exact ⟨h d (by simp), ih (fun x hx => h x (by simp [hx]))⟩

/-- The all-zero tuple has rank zero. -/
theorem rowMajorIndex_zeros (dims : List Nat) :
    rowMajorIndex dims (List.replicate dims.length 0) = 0 := by
  induction dims with
  | nil => simp [rowMajorIndex]
  | cons d ds ih => simp [List.replicate, rowMajorIndex, ih]

/-- Mapping a shape to zeros is the all-zero tuple. -/
theorem map_zero_eq_replicate (ds : List Nat) :
    ds.map (fun _ => 0) = List.replicate ds.length 0 := by
  induction ds with
  | nil => simp
  | cons d ds ih => simp [List.replicate, ih]

/-- The odometer of `increment_indices`: on a valid tuple of a positive
shape it either advances the row-major rank by exactly one (when the
successor exists) or reports exhaustion (when the rank was maximal). -/
theorem increment_indices_spec (dims : List Nat) (hpos : ∀ d ∈ dims, 0 < d) :
    ∀ idx, validIndices dims idx = true →
      (rowMajorIndex dims idx + 1 < prodDims dims →
        ∃ idx', increment_indices idx dims = some idx' ∧
          validIndices dims idx' = true ∧
          rowMajorIndex dims idx' = rowMajorIndex dims idx + 1) ∧
      (rowMajorIndex dims idx + 1 = prodDims dims →
        increment_indices idx dims = none) := by
  induction dims with
  | nil =>
    intro idx hv
    cases idx with
    | nil =>
      refine ⟨fun h => absurd h (by simp [rowMajorIndex, prodDims]), fun _ => rfl⟩
    | cons i is => simp [validIndices] at hv
  | cons d ds ih =>
    intro idx hv
    cases idx with
    | nil => simp [validIndices] at hv
    | cons i is =>
      simp only [validIndices, Bool.and_eq_true, decide_eq_true_eq] at hv
      obtain ⟨hi, hvds⟩ := hv
      have hposds : ∀ x ∈ ds, 0 < x := fun x hx => hpos x (by simp [hx])
      have hd : 0 < d := hpos d (by simp)
      have hP : 0 < prodDims ds := prodDims_pos ds hposds
      have hr := rowMajorIndex_lt_prodDims ds is hvds
      obtain ⟨ihadv, ihend⟩ := ih hposds is hvds
      by_cases hcase : rowMajorIndex ds is + 1 < prodDims ds
      · -- the tail advances
        obtain ⟨is', hinc, hv', hr'⟩ := ihadv hcase
        constructor
        · intro _
          refine ⟨i :: is', ?_, ?_, ?_⟩
          · simp [increment_indices, hinc]
          · simp [validIndices, hi, hv']
          · simp [rowMajorIndex, hr']
            omega
        · intro hend
          exfalso
          simp only [rowMajorIndex, prodDims] at hend
          have : (i + 1) * prodDims ds ≤ d * prodDims ds :=
            Nat.mul_le_mul_right _ (by omega)
          nlinarith
      · -- the tail is exhausted
        have htail : rowMajorIndex ds is + 1 = prodDims ds := by omega
        have hnone := ihend htail
        by_cases hstep : i + 1 < d
        · constructor
          · intro _
            refine ⟨(i + 1) :: ds.map (fun _ => 0), ?_, ?_, ?_⟩
            · simp [increment_indices, hnone, hstep]
            · simp only [validIndices, Bool.and_eq_true, decide_eq_true_eq,
                map_zero_eq_replicate]
              exact ⟨hstep, validIndices_zeros ds hposds⟩
            · simp only [rowMajorIndex, map_zero_eq_replicate, rowMajorIndex_zeros]
              have hsm : (i + 1) * prodDims ds = i * prodDims ds + prodDims ds := by
                ring
              omega
          · intro hend
            exfalso
            simp only [rowMajorIndex, prodDims] at hend
            have : (i + 1) * prodDims ds < d * prodDims ds :=
              Nat.mul_lt_mul_of_lt_of_le hstep (le_refl _) hP
            nlinarith
        · have hieq : i + 1 = d := by omega
          constructor
          · intro hadv
            exfalso
            simp only [rowMajorIndex, prodDims] at hadv
            nlinarith
          · intro _
            simp [increment_indices, hnone, hstep]

/-- `range'` of a successor length, as a cons. -/
theorem range'_cons_eq (s n : Nat) :
    List.range' s (n + 1) = s :: List.range' (s + 1) n := rfl

/-- Membership in `range'`. -/
theorem mem_range'_iff (j s n : Nat) :
    j ∈ List.range' s n ↔ s ≤ j ∧ j < s + n := by
  induction n generalizing s with
  | zero => simp [List.range']
  | succ n ih =>
    rw [range'_cons_eq]
    simp only [List.mem_cons, ih]
    omega

/-- Indexing into `range'`. -/
theorem range'_getD (s n k : Nat) (h : k < n) :
    (List.range' s n).getD k 0 = s + k := by
  induction n generalizing s k with
  | zero => omega
  | succ n ih =>
    rw [range'_cons_eq]
    cases k with
    | zero => simp
    | succ k =>
      simp only [List.getD_cons_succ]
      rw [ih (s + 1) k (by omega)]
      omega

/-- `u32_to_access` round-trips through `arrayIndices`. -/
theorem arrayIndices_u32_to_access (idx : List Nat) :
    arrayIndices (u32_to_access idx) = some idx := by
  induction idx with
  | nil => simp [u32_to_access, arrayIndices]
  | cons i is ih => simpa [u32_to_access, arrayIndices] using ih

/-- Reading leaf ids of a signal item bound in the top frame. -/
theorem get_signal_id_head_sig (rt : Runtime) (c : Context) (rest : List Context)
    (name : String) (dims ids : List Nat)
    (hf : rt.frames = c :: rest)
    (hl : lookupItem c.items name = some (.sigItem ⟨dims, ids⟩)) :
    ∀ idx, validIndices dims idx = true →
      rt.get_signal_id ⟨name, u32_to_access idx⟩ =
        .ok (ids.getD (rowMajorIndex dims idx) 0) := by
  intro idx hv
  unfold Runtime.get_signal_id
  rw [hf, findItem_head_some c rest name _ hl]
  simp [arrayIndices_u32_to_access, hv]

/-- The registration loop appends exactly the remaining row-major segment
of the pre-allocated id range: starting from a valid tuple of rank `r`
with `m = prodDims dims - r` leaves to go, it registers
`base + r, …, base + r + m - 1` in that order and stops. -/
theorem register_signal_loop_ok (rt : Runtime) (name : String) (dims : List Nat)
    (base : Nat)
    (hsig : ∀ idx, validIndices dims idx = true →
      rt.get_signal_id ⟨name, u32_to_access idx⟩ =
        .ok (base + rowMajorIndex dims idx))
    (hpos : ∀ d ∈ dims, 0 < d) :
    ∀ m idx ac fuel, validIndices dims idx = true →
      rowMajorIndex dims idx + m = prodDims dims →
      (∀ j, j ∈ List.range' (base + rowMajorIndex dims idx) m → j ∉ ac.signals) →
      m ≤ fuel →
      register_signal_loop rt name dims fuel idx ac =
        (.ok (), { ac with signals :=
          ac.signals ++ List.range' (base + rowMajorIndex dims idx) m }) := by
  intro m
  induction m with
  | zero =>
    intro idx ac fuel hv hm _ _
    exact absurd hm (by have := rowMajorIndex_lt_prodDims dims idx hv; omega)
  | succ k ih =>
    intro idx ac fuel hv hm hfresh hfuel
    obtain ⟨fuel', rfl⟩ : ∃ fuel', fuel = fuel' + 1 :=
      ⟨fuel - 1, by omega⟩
    have hnotmem : base + rowMajorIndex dims idx ∉ ac.signals :=
      hfresh _ (by rw [mem_range'_iff]; omega)
    have hadd : ac.add_signal (base + rowMajorIndex dims idx) =
        .ok { ac with signals := ac.signals ++ [base + rowMajorIndex dims idx] } := by
      simp [ArithmeticCircuit.add_signal, hnotmem]
    obtain ⟨hadv, hend⟩ := increment_indices_spec dims hpos idx hv
    simp only [register_signal_loop, hsig idx hv, hadd]
    cases k with
    | zero =>
      rw [hend (by omega)]
      simp [range'_cons_eq]
    | succ k' =>
      obtain ⟨idx', hinc, hv', hr'⟩ := hadv (by omega)
      simp only [hinc]
      have := ih idx' { ac with signals :=
          ac.signals ++ [base + rowMajorIndex dims idx] } fuel' hv'
        (by omega)
        (by
          intro j hj
          rw [hr'] at hj
          rw [mem_range'_iff] at hj
          simp only [List.mem_append, List.mem_singleton]
          push_neg
          constructor
          · exact hfresh j (by rw [mem_range'_iff]; omega)
          · omega)
        (by omega)
      rw [this, hr']
      have hlist : List.range' (base + rowMajorIndex dims idx) (k' + 1 + 1) =
          (base + rowMajorIndex dims idx) ::
            List.range' (base + rowMajorIndex dims idx + 1) (k' + 1) :=
        range'_cons_eq _ _
      simp [hlist]
      omega

/-- Inversion of `declare_item` for a signal of any shape: `prodDims dims`
dense ids are allocated, in row-major leaf order. -/
theorem declare_item_sig_inv (rt : Runtime) (name : String) (dims : List Nat)
    (rt1 : Runtime) (h : rt.declare_item .Signal name dims = .ok rt1) :
    ∃ c rest, rt.frames = c :: rest ∧ lookupItem c.items name = none ∧
      rt1 = ⟨{ c with items := c.items ++
          [(name, .sigItem ⟨dims, List.range' rt.signalCounter (prodDims dims)⟩)] } :: rest,
        rt.signalCounter + prodDims dims, rt.nameCounter⟩ := by
  unfold Runtime.declare_item at h
  split at h
  · exact absurd h (by simp)
  · rename_i c rest hf
    split at h
    · exact absurd h (by simp)
    · rename_i hl
      refine ⟨c, rest, hf, hl, ?_⟩
      simpa using h.symm

/-- **C3.** Processing a `Declaration` of a signal whose dimension
expressions evaluated to `dims` registers exactly `prodDims dims` leaf
signal ids in the circuit at that moment (none lazily): the signal list is
extended by precisely the consecutive id block
`range' counter (prodDims dims)`, gates and connections are untouched, and
the id registered at position `k` of the block is the leaf whose row-major
rank is `k` — indices advance with the last dimension varying fastest. -/
theorem declaration_signal_row_major_spec (arch : ProgramArchive) (fuel : Nat)
    (name : String) (dimExprs : List Expression) (s : EState)
    (dimAcc : List DataAccess) (s1 : EState) (dims : List Nat) (rt2 : Runtime)
    (h1 : process_expression_list arch fuel dimExprs s = (.ok dimAcc, s1))
    (h2 : get_variable_values s1.runtime dimAcc = .ok dims)
    (h3 : ∀ d ∈ dims, 0 < d)
    (h4 : s1.runtime.declare_item .Signal name dims = .ok rt2)
    (h5 : ∀ j, j ∈ List.range' s1.runtime.signalCounter (prodDims dims) →
      j ∉ s1.ac.signals) :
    process_statement arch (fuel + 1) (.Declaration .Signal name dimExprs) s =
      (.ok (), ⟨{ s1.ac with signals :=
        s1.ac.signals ++ List.range' s1.runtime.signalCounter (prodDims dims) }, rt2⟩) ∧
    ∀ idx, validIndices dims idx = true →
      rt2.get_signal_id ⟨name, u32_to_access idx⟩ =
        .ok (s1.runtime.signalCounter + rowMajorIndex dims idx) := by
  obtain ⟨c, rest, hf, hl, hrt⟩ := declare_item_sig_inv _ _ _ _ h4
  have hsig : ∀ idx, validIndices dims idx = true →
      rt2.get_signal_id ⟨name, u32_to_access idx⟩ =
        .ok (s1.runtime.signalCounter + rowMajorIndex dims idx) := by
    intro idx hv
    have hgs := get_signal_id_head_sig rt2
      ⟨c.inherited, c.items ++ [(name, .sigItem
        ⟨dims, List.range' s1.runtime.signalCounter (prodDims dims)⟩)]⟩ rest name dims
      (List.range' s1.runtime.signalCounter (prodDims dims))
      (by rw [hrt]) (lookupItem_append_self _ _ _ hl) idx hv
    rw [hgs, range'_getD _ _ _ (rowMajorIndex_lt_prodDims dims idx hv)]
  refine ⟨?_, hsig⟩
  by_cases hie : dims.isEmpty
  · have hdims : dims = [] := by
      cases dims with
      | nil => rfl
      | cons d ds => simp at hie
    subst hdims
    have h0 : rt2.get_signal_id ⟨name, []⟩ = .ok s1.runtime.signalCounter := by
      have := hsig [] rfl
      simpa [u32_to_access, rowMajorIndex] using this
    have hni : s1.runtime.signalCounter ∉ s1.ac.signals :=
      h5 _ (by rw [mem_range'_iff]; simp [prodDims])
    have hadd : s1.ac.add_signal s1.runtime.signalCounter =
        .ok { s1.ac with signals := s1.ac.signals ++ [s1.runtime.signalCounter] } := by
      simp [ArithmeticCircuit.add_signal, hni]
    simp only [process_statement, h1, bindE, readRt, h2, modifyRt, h4, modifyAc]
    simp [h0, hadd, prodDims, range'_cons_eq]
  · have hloop := register_signal_loop_ok rt2 name dims s1.runtime.signalCounter
      hsig h3 (prodDims dims) (List.replicate dims.length 0) s1.ac (prodDims dims + 1)
      (validIndices_zeros dims h3)
      (by simp [rowMajorIndex_zeros])
      (by simp only [rowMajorIndex_zeros, Nat.add_zero]; exact h5)
      (by omega)
    rw [rowMajorIndex_zeros, Nat.add_zero] at hloop
    simp only [process_statement, h1, bindE, readRt, h2, modifyRt, h4]
    simp [hie, hloop]

/-- Witness for C3: `signal s[2][3];` from the initial state registers the
six ids `1..6`, and the leaf `s[1][2]` (row-major rank `5`) carries id
`6`. -/
theorem declaration_signal_row_major_spec_witness :
    process_statement archEmpty 4 (.Declaration .Signal ("s") [.Number 2, .Number 3]) stInit =
      (.ok (), ⟨{ stC3Dims.ac with signals :=
        stC3Dims.ac.signals ++ List.range' stC3Dims.runtime.signalCounter (prodDims [2, 3]) }, rtC3Decl⟩) ∧
    rtC3Decl.get_signal_id ⟨"s", u32_to_access [1, 2]⟩ =
      .ok (stC3Dims.runtime.signalCounter + rowMajorIndex [2, 3] [1, 2]) :=
  ⟨(declaration_signal_row_major_spec archEmpty 3 "s" [.Number 2, .Number 3] stInit
      [anonAcc0, anonAcc1] stC3Dims [2, 3] rtC3Decl
      (by decide) (by decide) (by decide) (by decide) (by decide)).1,
   (declaration_signal_row_major_spec archEmpty 3 "s" [.Number 2, .Number 3] stInit
      [anonAcc0, anonAcc1] stC3Dims [2, 3] rtC3Decl
      (by decide) (by decide) (by decide) (by decide) (by decide)).2 [1, 2] (by decide)⟩

/-! ### Type-preservation lemmas (for the constant-and-variable fragment) -/

/-- `isVarName` unfolded. -/
theorem isVarName_iff (rt : Runtime) (name : String) :
    isVarName rt name = true ↔ rt.get_item_data_type name = .ok .Variable := by
  constructor
  · intro hm
    unfold isVarName at hm
    split at hm
    · rename_i heq
      exact heq
    · exact absurd hm (by simp)
  · intro heq
    unfold isVarName
    split
    · rfl
    · rename_i hne
      exact absurd heq hne

/-- Lookup in an extended item list. -/
theorem lookupItem_append (items : List (String × Item)) (name m : String) (it : Item) :
    lookupItem (items ++ [(name, it)]) m =
      (match lookupItem items m with
      | some a => some a
      | none => if name = m then some it else none) := by
  induction items with
  | nil => simp [lookupItem]
  | cons p rest ih =>
    obtain ⟨n, b⟩ := p
    by_cases hn : n = m
    · simp [lookupItem, hn]
    · simp only [List.cons_append, lookupItem, if_neg hn]
      exact ih

/-- Name resolution after appending a fresh binding to the top frame: an
already-resolving-in-the-top-frame name is unchanged, the appended name
resolves to the new item (unless shadowed inside the frame), and the rest
falls through as before. -/
theorem findItem_top_append (c : Context) (rest : List Context) (name m : String)
    (it : Item) :
    findItem (visibleFrames ({ c with items := c.items ++ [(name, it)] } :: rest)) m =
      (match lookupItem c.items m with
      | some a => some a
      | none =>
        if name = m then some it
        else findItem (visibleFrames (c :: rest)) m) := by
  by_cases hinh : c.inherited
  · show findItem (visibleFrames ({ inherited := c.inherited, items := _ } :: rest)) m = _
    unfold visibleFrames
    simp only [hinh, if_true, findItem, lookupItem_append]
    cases hx : lookupItem c.items m with
    | some a => simp
    | none =>
      by_cases hn : name = m
      · simp [hn]
      · simp [hn]
  · show findItem (visibleFrames ({ inherited := c.inherited, items := _ } :: rest)) m = _
    unfold visibleFrames
    simp only [hinh, if_false, findItem, lookupItem_append]
    cases hx : lookupItem c.items m with
    | some a => simp
    | none =>
      by_cases hn : name = m
      · simp [hn]
      · simp [hn, findItem]

/-- `varPreserved` is reflexive. -/
theorem varPreserved_refl (rt : Runtime) : varPreserved rt rt := fun _ h => h

/-- `varPreserved` is transitive. -/
theorem varPreserved_trans (rt1 rt2 rt3 : Runtime)
    (h1 : varPreserved rt1 rt2) (h2 : varPreserved rt2 rt3) :
    varPreserved rt1 rt3 := fun n h => h2 n (h1 n h)

/-- Appending a fresh variable item to the top frame preserves every
variable-typed name (a shadowed name stays variable-typed). -/
theorem varPreserved_append_var (rt rt' : Runtime) (c : Context) (rest : List Context)
    (name : String) (dims : List Nat) (vals : List (Option Nat))
    (hf : rt.frames = c :: rest)
    (hf' : rt'.frames = { c with items := c.items ++ [(name, .varItem dims vals)] } :: rest) :
    varPreserved rt rt' := by
  intro m hm
  rw [isVarName_iff] at hm ⊢
  unfold Runtime.get_item_data_type at hm ⊢
  rw [hf] at hm
  rw [hf', findItem_top_append]
  cases hx : lookupItem c.items m with
  | some a =>
    have : findItem (visibleFrames (c :: rest)) m = some a :=
      findItem_head_some c rest m a hx
    rw [this] at hm
    simpa using hm
  | none =>
    by_cases hn : name = m
    · simp [hn]
    · simp only [hn, if_false]
      exact hm

/-- Item update functions that keep the constructor keep the lookup data
types. -/
theorem updateItems_lookup_dataType (items : List (String × Item)) (name : String)
    (f : Item → Except ProgramError Item)
    (hf : ∀ it it', f it = .ok it' → it'.dataType = it.dataType)
    (items' : List (String × Item))
    (h : updateInFrames.updateItems items name f = .ok items') :
    ∀ m, (lookupItem items' m).map Item.dataType =
      (lookupItem items m).map Item.dataType := by
  induction items generalizing items' with
  | nil => simp [updateInFrames.updateItems] at h
  | cons p rest ih =>
    obtain ⟨n, it⟩ := p
    unfold updateInFrames.updateItems at h
    split at h
    · rename_i hn
      split at h
      · exact absurd h (by simp)
      · rename_i it' hit
        obtain rfl : _ = items' := by simpa using h
        intro m
        by_cases hm : n = m
        · simp [lookupItem, hm, hf it it' hit]
        · simp [lookupItem, hm]
    · rename_i hn
      split at h
      · exact absurd h (by simp)
      · rename_i rest' hrest
        obtain rfl : _ = items' := by simpa using h
        intro m
        by_cases hm : n = m
        · simp [lookupItem, hm]
        · simp only [lookupItem, if_neg hm]
          exact ih rest' hrest m

/-- `updateInFrames` with a constructor-preserving update keeps the
resolved data type of every name. -/
theorem updateInFrames_findItem_dataType (frames : List Context) (name : String)
    (f : Item → Except ProgramError Item)
    (hf : ∀ it it', f it = .ok it' → it'.dataType = it.dataType)
    (frames' : List Context)
    (h : updateInFrames frames name f = .ok frames') :
    ∀ m, (findItem (visibleFrames frames') m).map Item.dataType =
      (findItem (visibleFrames frames) m).map Item.dataType := by
  induction frames generalizing frames' with
  | nil => simp [updateInFrames] at h
  | cons c rest ih =>
    unfold updateInFrames at h
    split at h
    · rename_i it hit
      split at h
      · exact absurd h (by simp)
      · rename_i items' hupd
        obtain rfl : _ = frames' := by simpa using h
        intro m
        have hkeys := updateItems_lookup_dataType _ _ _ hf _ hupd m
        unfold visibleFrames
        by_cases hinh : c.inherited
        · simp only [hinh, if_true, findItem]
          cases hx : lookupItem c.items m with
          | some a =>
            rw [hx] at hkeys
            cases hy : lookupItem items' m with
            | some b => rw [hy] at hkeys; simpa using hkeys
            | none => rw [hy] at hkeys; simp at hkeys
          | none =>
            rw [hx] at hkeys
            cases hy : lookupItem items' m with
            | some b => rw [hy] at hkeys; simp at hkeys
            | none => simp [hy, hx]
        · simp only [hinh, if_false, findItem]
          cases hx : lookupItem c.items m with
          | some a =>
            rw [hx] at hkeys
            cases hy : lookupItem items' m with
            | some b => rw [hy] at hkeys; simpa using hkeys
            | none => rw [hy] at hkeys; simp at hkeys
          | none =>
            rw [hx] at hkeys
            cases hy : lookupItem items' m with
            | some b => rw [hy] at hkeys; simp at hkeys
            | none => simp [hy, hx, findItem]
    · rename_i hn
      split at h
      · rename_i hinh
        split at h
        · exact absurd h (by simp)
        · rename_i rest' hrest
          obtain rfl : _ = frames' := by simpa using h
          intro m
          unfold visibleFrames
          simp only [hinh, if_true, findItem]
          cases hx : lookupItem c.items m with
          | some a => simp
          | none => exact ih _ hrest m
      · exact absurd h (by simp)

/-- `set_variable` keeps the resolved data type of every name. -/
theorem set_variable_types (rt : Runtime) (a : DataAccess) (v : Option Nat)
    (rt' : Runtime) (h : rt.set_variable a v = .ok rt') :
    ∀ m, rt'.get_item_data_type m = rt.get_item_data_type m := by
  unfold Runtime.set_variable at h
  split at h
  · exact absurd h (by simp)
  · rename_i frames' hupd
    obtain rfl : _ = rt' := by simpa using h
    intro m
    have hdt := updateInFrames_findItem_dataType _ _ _ ?_ _ hupd m
    · unfold Runtime.get_item_data_type
      cases hx : findItem (visibleFrames rt.frames) m with
      | none =>
        rw [hx] at hdt
        simp only [Option.map_none'] at hdt
        cases hy : findItem (visibleFrames frames') m with
        | none => rfl
        | some b => rw [hy] at hdt; simp at hdt
      | some a =>
        rw [hx] at hdt
        cases hy : findItem (visibleFrames frames') m with
        | none => rw [hy] at hdt; simp at hdt
        | some b =>
          rw [hy] at hdt
          simp only [Option.map_some', Option.some.injEq] at hdt
          cases a <;> cases b <;> simp_all [Item.dataType]
    · intro it it' hit
      split at hit
      · split at hit
        · exact absurd hit (by simp)
        · split at hit
          · obtain rfl : _ = it' := by simpa using hit
            simp [Item.dataType]
          · exact absurd hit (by simp)
      · exact absurd hit (by simp)

/-- `set_variable` preserves variable-typed names. -/
theorem varPreserved_set_variable (rt : Runtime) (a : DataAccess) (v : Option Nat)
    (rt' : Runtime) (h : rt.set_variable a v = .ok rt') :
    varPreserved rt rt' := by
  intro m hm
  rw [isVarName_iff] at hm ⊢
  rw [set_variable_types rt a v rt' h m]
  exact hm

mutual

/-- The constant-and-variable predicate only depends on which names are
variable-typed, so it transports along `varPreserved`. -/
theorem constVarExpr_mono (rt rt' : Runtime) (hp : varPreserved rt rt') :
    ∀ e, constVarExpr rt e = true → constVarExpr rt' e = true
  | .Number _, _ => by simp [constVarExpr]
  | .Variable name access, h => by
    simp only [constVarExpr, Bool.and_eq_true] at h ⊢
    exact ⟨hp name h.1, constVarAccessVec_mono rt rt' hp access h.2⟩
  | .InfixOp lhe op rhe, h => by
    simp only [constVarExpr, Bool.and_eq_true] at h ⊢
    exact ⟨constVarExpr_mono rt rt' hp lhe h.1, constVarExpr_mono rt rt' hp rhe h.2⟩
  | .Call _ _, h => by simp [constVarExpr] at h
  | .PrefixOp _, h => by simp [constVarExpr] at h
  | .InlineSwitchOp _ _ _, h => by simp [constVarExpr] at h
  | .ParallelOp _, h => by simp [constVarExpr] at h
  | .AnonymousComp _ _ _, h => by simp [constVarExpr] at h
  | .ArrayInLine _, h => by simp [constVarExpr] at h
  | .Tuple _, h => by simp [constVarExpr] at h
  | .UniformArray _ _, h => by simp [constVarExpr] at h

/-- Companion of `constVarExpr_mono` for access chains. -/
theorem constVarAccessVec_mono (rt rt' : Runtime) (hp : varPreserved rt rt') :
    ∀ acc, constVarAccessVec rt acc = true → constVarAccessVec rt' acc = true
  | [], _ => by simp [constVarAccessVec]
  | .ArrayAccess e :: rest, h => by
    simp only [constVarAccessVec, Bool.and_eq_true] at h ⊢
    exact ⟨constVarExpr_mono rt rt' hp e h.1,
      constVarAccessVec_mono rt rt' hp rest h.2⟩
  | .ComponentAccess _ :: _, h => by simp [constVarAccessVec] at h

end

/-- A successful signal coercion never touches gates or connections and
extends the signal list by at most the constant it returned. -/
theorem get_signal_for_access_shape (ac : ArithmeticCircuit) (rt : Runtime)
    (access : DataAccess) (id : Nat) (ac' : ArithmeticCircuit)
    (h : get_signal_for_access ac rt access = .ok (id, ac')) :
    ac'.gates = ac.gates ∧ ac'.connections = ac.connections ∧
    (ac'.signals = ac.signals ∨ ac'.signals = ac.signals ++ [id]) := by
  unfold get_signal_for_access at h
  split at h
  · exact absurd h (by simp)
  · -- signal branch
    split at h
    · exact absurd h (by simp)
    · rename_i i hi
      obtain ⟨rfl, rfl⟩ : i = id ∧ ac = ac' := by simpa [Prod.ext_iff] using h
      exact ⟨rfl, rfl, Or.inl rfl⟩
  · -- variable branch
    split at h
    · exact absurd h (by simp)
    · exact absurd h (by simp)
    · rename_i v hval
      split at h
      · exact absurd h (by simp)
      · rename_i ac2 hconst
        obtain ⟨rfl, rfl⟩ : v = id ∧ ac2 = ac' := by simpa [Prod.ext_iff] using h
        unfold ArithmeticCircuit.add_const at hconst
        split at hconst
        · obtain rfl : ac = ac2 := by simpa using hconst
          exact ⟨rfl, rfl, Or.inl rfl⟩
        · obtain rfl : _ = ac2 := Except.ok.inj hconst
          exact ⟨rfl, rfl, Or.inr rfl⟩
  · -- component branch
    split at h
    · exact absurd h (by simp)
    · rename_i i hi
      obtain ⟨rfl, rfl⟩ : i = id ∧ ac = ac' := by simpa [Prod.ext_iff] using h
      exact ⟨rfl, rfl, Or.inl rfl⟩

/-- The variable–variable branch of `handle_infix_op`: after both operand
evaluations, the result is a fresh anonymous variable holding
`execute_op v_l v_r op` and the circuit of the post-operand state is
completely unchanged. -/
theorem handle_infix_op_var_var (arch : ProgramArchive) (fuel : Nat)
    (op : ExpressionInfixOpcode) (lhe rhe : Expression) (s : EState)
    (la ra : DataAccess) (s1 s2 : EState) (vl vr res : Nat)
    (acc : DataAccess) (rt3 : Runtime)
    (hl : process_expression arch fuel lhe s = (.ok la, s1))
    (hr : process_expression arch fuel rhe s1 = (.ok ra, s2))
    (htl : s2.runtime.get_item_data_type la.name = .ok .Variable)
    (htr : s2.runtime.get_item_data_type ra.name = .ok .Variable)
    (hvl : s2.runtime.get_variable_value la = .ok (some vl))
    (hvr : s2.runtime.get_variable_value ra = .ok (some vr))
    (hop : execute_op vl vr op = .ok res)
    (hdecl : s2.runtime.declare_random_item .Variable = .ok (acc, rt3)) :
    ∃ rt4, handle_infix_op arch (fuel + 1) op lhe rhe s = (.ok acc, ⟨s2.ac, rt4⟩) ∧
      rt4.get_variable_value acc = .ok (some res) ∧
      rt4.get_item_data_type acc.name = .ok .Variable ∧
      lookupItem (currentFrameItems s2.runtime) acc.name = none := by
  obtain ⟨hacc, c, rest, hf, hlk, hrt3⟩ := declare_random_item_var_inv _ _ _ hdecl
  have hfr3 : rt3.frames = { c with items :=
      c.items ++ [(acc.name, .varItem [] [none])] } :: rest := by rw [hrt3]
  have hset := set_after_declare_scalar rt3 c rest acc.name none (some res) hfr3 hlk
  have hacceq : (⟨acc.name, []⟩ : DataAccess) = acc := by rw [hacc]
  rw [hacceq] at hset
  refine ⟨⟨{ c with items := c.items ++ [(acc.name, .varItem [] [some res])] } :: rest,
    rt3.signalCounter, rt3.nameCounter⟩, ?_, ?_, ?_, ?_⟩
  · simp only [handle_infix_op, hl, bindE, hr, readRt, htl, htr]
    rw [if_pos ⟨trivial, trivial⟩]
    simp only [hvl, hvr, expectValue, bindE, pureE, hop, modifyRtA, hdecl, modifyRt,
      hset]
  · have := get_variable_value_head_scalar
      ⟨{ c with items := c.items ++ [(acc.name, .varItem [] [some res])] } :: rest,
        rt3.signalCounter, rt3.nameCounter⟩
      ⟨c.inherited, c.items ++ [(acc.name, .varItem [] [some res])]⟩ rest acc.name
      (some res) rfl (lookupItem_append_self _ _ _ hlk)
    rwa [hacceq] at this
  · exact get_item_data_type_head _
      ⟨c.inherited, c.items ++ [(acc.name, .varItem [] [some res])]⟩ rest acc.name
      (.varItem [] [some res]) rfl (lookupItem_append_self _ _ _ hlk)
  · simp [currentFrameItems, hf, hlk]

/-- The gate branch of `handle_infix_op`: when the operands do not both
resolve to variables, the dispatch coerces both sides to signal ids,
registers exactly one fresh output signal, and appends exactly one gate
`op(l_id, r_id) → out_id`, returning the output signal's access.  The
coercions themselves never add gates or connections and extend the signal
list only by the constants they return. -/
theorem handle_infix_op_gate (arch : ProgramArchive) (fuel : Nat)
    (op : ExpressionInfixOpcode) (lhe rhe : Expression) (s : EState)
    (la ra : DataAccess) (s1 s2 : EState) (tl tr : DataType)
    (lid rid : Nat) (ac1 ac2 : ArithmeticCircuit)
    (outAcc : DataAccess) (rt3 : Runtime)
    (hl : process_expression arch fuel lhe s = (.ok la, s1))
    (hr : process_expression arch fuel rhe s1 = (.ok ra, s2))
    (htl : s2.runtime.get_item_data_type la.name = .ok tl)
    (htr : s2.runtime.get_item_data_type ra.name = .ok tr)
    (hnotvar : ¬(tl = DataType.Variable ∧ tr = DataType.Variable))
    (hcl : get_signal_for_access s2.ac s2.runtime la = .ok (lid, ac1))
    (hcr : get_signal_for_access ac1 s2.runtime ra = .ok (rid, ac2))
    (hdecl : s2.runtime.declare_random_item .Signal = .ok (outAcc, rt3))
    (hfresh : s2.runtime.signalCounter ∉ ac2.signals)
    (hlid : lid ∈ ac2.signals) (hrid : rid ∈ ac2.signals) :
    handle_infix_op arch (fuel + 1) op lhe rhe s =
      (.ok outAcc, ⟨⟨ac2.signals ++ [s2.runtime.signalCounter],
        ac2.gates ++ [⟨AGateType.fromOp op, lid, rid, s2.runtime.signalCounter⟩],
        ac2.connections⟩, rt3⟩) ∧
    ac2.gates = s2.ac.gates ∧ ac2.connections = s2.ac.connections ∧
    (∃ cs, ac2.signals = s2.ac.signals ++ cs) ∧
    rt3.get_item_data_type outAcc.name = .ok .Signal := by
  obtain ⟨hacc, c, rest, hf, hlk, hrt3⟩ := declare_random_item_sig_inv _ _ _ hdecl
  have hout : rt3.get_signal_id ⟨outAcc.name, []⟩ = .ok s2.runtime.signalCounter :=
    get_signal_id_head_scalar rt3
      ⟨c.inherited, c.items ++
        [(outAcc.name, .sigItem ⟨[], [s2.runtime.signalCounter]⟩)]⟩ rest outAcc.name
      s2.runtime.signalCounter (by rw [hrt3]) (lookupItem_append_self _ _ _ hlk)
  have hacceq : (⟨outAcc.name, []⟩ : DataAccess) = outAcc := by rw [hacc]
  rw [hacceq] at hout
  obtain ⟨hg1, hc1, hs1⟩ := get_signal_for_access_shape _ _ _ _ _ hcl
  obtain ⟨hg2, hc2, hs2⟩ := get_signal_for_access_shape _ _ _ _ _ hcr
  have hadd : ac2.add_signal s2.runtime.signalCounter =
      .ok ⟨ac2.signals ++ [s2.runtime.signalCounter], ac2.gates, ac2.connections⟩ := by
    simp [ArithmeticCircuit.add_signal, hfresh]
  have hgate : (⟨ac2.signals ++ [s2.runtime.signalCounter], ac2.gates,
      ac2.connections⟩ : ArithmeticCircuit).add_gate (AGateType.fromOp op)
        lid rid s2.runtime.signalCounter =
      .ok ⟨ac2.signals ++ [s2.runtime.signalCounter],
        ac2.gates ++ [⟨AGateType.fromOp op, lid, rid, s2.runtime.signalCounter⟩],
        ac2.connections⟩ := by
    unfold ArithmeticCircuit.add_gate
    rw [if_pos]
    exact ⟨by simp [hlid], by simp [hrid], by simp⟩
  refine ⟨?_, ?_, ?_, ?_, ?_⟩
  · simp only [handle_infix_op, hl, bindE, hr, readRt, htl, htr]
    rw [if_neg hnotvar]
    simp only [bindE, coerceSignal, hcl, hcr, modifyRtA, hdecl, readRt, hout,
      modifyAc, hadd, hgate]
  · rw [hg2, hg1]
  · rw [hc2, hc1]
  · rcases hs1 with h1 | h1 <;> rcases hs2 with h2 | h2
    · exact ⟨[], by simp [h2, h1]⟩
    · exact ⟨[rid], by simp [h2, h1]⟩
    · exact ⟨[lid], by rw [h2, h1]⟩
    · exact ⟨[lid, rid], by rw [h2, h1]; simp⟩
  · exact get_item_data_type_head _
      ⟨c.inherited, c.items ++
        [(outAcc.name, .sigItem ⟨[], [s2.runtime.signalCounter]⟩)]⟩ rest outAcc.name
      (.sigItem ⟨[], [s2.runtime.signalCounter]⟩) (by rw [hrt3])
      (lookupItem_append_self _ _ _ hlk)

/-- Constant-and-variable expressions never touch the circuit: every
evaluator entry point keeps the circuit intact, declares only
variable-typed items, and on success returns an access naming a
variable-typed item. -/
theorem const_var_no_circuit (arch : ProgramArchive) : ∀ fuel : Nat,
    (∀ e s r s', constVarExpr s.runtime e = true →
      process_expression arch fuel e s = (r, s') →
      s'.ac = s.ac ∧ varPreserved s.runtime s'.runtime ∧
      ∀ a, r = .ok a → isVarName s'.runtime a.name = true) ∧
    (∀ name access s r s', isVarName s.runtime name = true →
      constVarAccessVec s.runtime access = true →
      build_access arch fuel name access s = (r, s') →
      s'.ac = s.ac ∧ varPreserved s.runtime s'.runtime ∧
      ∀ a, r = .ok a → isVarName s'.runtime a.name = true) ∧
    (∀ access s r s', constVarAccessVec s.runtime access = true →
      build_access_vec arch fuel access s = (r, s') →
      s'.ac = s.ac ∧ varPreserved s.runtime s'.runtime) ∧
    (∀ op lhe rhe s r s', constVarExpr s.runtime lhe = true →
      constVarExpr s.runtime rhe = true →
      handle_infix_op arch fuel op lhe rhe s = (r, s') →
      s'.ac = s.ac ∧ varPreserved s.runtime s'.runtime ∧
      ∀ a, r = .ok a → isVarName s'.runtime a.name = true) := by
  intro fuel
  induction fuel with
  | zero =>
    refine ⟨?_, ?_, ?_, ?_⟩
    · intro e s r s' _ hres
      simp only [process_expression] at hres
      injection hres with h1 h2
      subst h1; subst h2
      exact ⟨rfl, varPreserved_refl _, fun a ha => absurd ha (by simp)⟩
    · intro name access s r s' _ _ hres
      simp only [build_access] at hres
      injection hres with h1 h2
      subst h1; subst h2
      exact ⟨rfl, varPreserved_refl _, fun a ha => absurd ha (by simp)⟩
    · intro access s r s' _ hres
      simp only [build_access_vec] at hres
      injection hres with h1 h2
      subst h1; subst h2
      exact ⟨rfl, varPreserved_refl _⟩
    · intro op lhe rhe s r s' _ _ hres
      simp only [handle_infix_op] at hres
      injection hres with h1 h2
      subst h1; subst h2
      exact ⟨rfl, varPreserved_refl _, fun a ha => absurd ha (by simp)⟩
  | succ fuel ih =>
    obtain ⟨ihE, ihBA, ihBV, ihHI⟩ := ih
    refine ⟨?_, ?_, ?_, ?_⟩
    · -- process_expression
      intro e s r s' hcv hres
      cases e with
      | Call id args => exact absurd hcv (by simp [constVarExpr])
      | PrefixOp rhe => exact absurd hcv (by simp [constVarExpr])
      | InlineSwitchOp c0 t0 f0 => exact absurd hcv (by simp [constVarExpr])
      | ParallelOp rhe => exact absurd hcv (by simp [constVarExpr])
      | AnonymousComp i0 p0 s0 => exact absurd hcv (by simp [constVarExpr])
      | ArrayInLine vs => exact absurd hcv (by simp [constVarExpr])
      | Tuple vs => exact absurd hcv (by simp [constVarExpr])
      | UniformArray v0 d0 => exact absurd hcv (by simp [constVarExpr])
      | Variable name access =>
        simp only [constVarExpr, Bool.and_eq_true] at hcv
        simp only [process_expression] at hres
        exact ihBA name access s r s' hcv.1 hcv.2 hres
      | InfixOp lhe op0 rhe =>
        simp only [constVarExpr, Bool.and_eq_true] at hcv
        simp only [process_expression] at hres
        exact ihHI op0 lhe rhe s r s' hcv.1 hcv.2 hres
      | Number v =>
        cases hd : s.runtime.declare_random_item .Variable with
        | error e0 =>
          simp only [process_expression, modifyRtA, hd, bindE] at hres
          injection hres with h1 h2
          subst h1; subst h2
          exact ⟨rfl, varPreserved_refl _, fun a ha => absurd ha (by simp)⟩
        | ok p =>
          obtain ⟨acc2, rt1⟩ := p
          obtain ⟨hacc, c, rest, hf, hlk, hrt1⟩ := declare_random_item_var_inv _ _ _ hd
          have hfr1 : rt1.frames = { c with items :=
              c.items ++ [(acc2.name, .varItem [] [none])] } :: rest := by rw [hrt1]
          have hpres01 := varPreserved_append_var s.runtime rt1 c rest acc2.name []
            [none] hf hfr1
          by_cases hfit : v < U32
          · have hset := set_after_declare_scalar rt1 c rest acc2.name none (some v)
              hfr1 hlk
            have hacceq : (⟨acc2.name, []⟩ : DataAccess) = acc2 := by rw [hacc]
            rw [hacceq] at hset
            simp only [process_expression, modifyRtA, hd, bindE, if_pos hfit,
              modifyRt, hset] at hres
            injection hres with h1 h2
            subst h1; subst h2
            refine ⟨rfl, ?_, ?_⟩
            · exact varPreserved_trans _ _ _ hpres01
                (varPreserved_set_variable rt1 acc2 (some v) _ hset)
            · intro a ha
              obtain rfl : acc2 = a := by simpa using ha
              rw [isVarName_iff]
              exact get_item_data_type_head _
                ⟨c.inherited, c.items ++ [(acc2.name, .varItem [] [some v])]⟩ rest
                acc2.name (.varItem [] [some v]) rfl (lookupItem_append_self _ _ _ hlk)
          · simp only [process_expression, modifyRtA, hd, bindE, if_neg hfit] at hres
            injection hres with h1 h2
            subst h1; subst h2
            exact ⟨rfl, hpres01, fun a ha => absurd ha (by simp)⟩
    · -- build_access
      intro name access s r s' hname hacc hres
      simp only [build_access] at hres
      rcases hbv : build_access_vec arch fuel access s with ⟨rv, s1⟩
      rw [hbv] at hres
      obtain ⟨hac1, hpres1⟩ := ihBV access s rv s1 hacc hbv
      cases rv with
      | error e0 =>
        simp only [bindE] at hres
        injection hres with h1 h2
        subst h1; subst h2
        exact ⟨hac1, hpres1, fun a ha => absurd ha (by simp)⟩
      | ok vec =>
        simp only [bindE] at hres
        injection hres with h1 h2
        subst h1; subst h2
        refine ⟨hac1, hpres1, ?_⟩
        intro a ha
        obtain rfl : (⟨name, vec⟩ : DataAccess) = a := by simpa using ha
        exact hpres1 name hname
    · -- build_access_vec
      intro access s r s' hacc hres
      cases access with
      | nil =>
        simp only [build_access_vec] at hres
        injection hres with h1 h2
        subst h1; subst h2
        exact ⟨rfl, varPreserved_refl _⟩
      | cons a0 rest0 =>
        cases a0 with
        | ComponentAccess str => exact absurd hacc (by simp [constVarAccessVec])
        | ArrayAccess e =>
          simp only [constVarAccessVec, Bool.and_eq_true] at hacc
          obtain ⟨hcve, hrest⟩ := hacc
          simp only [build_access_vec] at hres
          rcases hpe : process_expression arch fuel e s with ⟨re, se1⟩
          rw [hpe] at hres
          obtain ⟨hac1, hpres1, _⟩ := ihE e s re se1 hcve hpe
          cases re with
          | error e0 =>
            simp only [bindE] at hres
            injection hres with h1 h2
            subst h1; subst h2
            exact ⟨hac1, hpres1⟩
          | ok ia =>
            simp only [bindE, readRt] at hres
            cases hev : expectValue (se1.runtime.get_variable_value ia) with
            | error e0 =>
              rw [hev] at hres
              simp only [bindE] at hres
              injection hres with h1 h2
              subst h1; subst h2
              exact ⟨hac1, hpres1⟩
            | ok idxv =>
              rw [hev] at hres
              simp only [bindE] at hres
              rcases hbv : build_access_vec arch fuel rest0 se1 with ⟨rv, s2⟩
              rw [hbv] at hres
              obtain ⟨hac2, hpres2⟩ := ihBV rest0 se1 rv s2
                (constVarAccessVec_mono _ _ hpres1 rest0 hrest) hbv
              cases rv with
              | error e0 =>
                simp only [bindE] at hres
                injection hres with h1 h2
                subst h1; subst h2
                exact ⟨hac2.trans hac1, varPreserved_trans _ _ _ hpres1 hpres2⟩
              | ok tail =>
                simp only [bindE] at hres
                injection hres with h1 h2
                subst h1; subst h2
                exact ⟨hac2.trans hac1, varPreserved_trans _ _ _ hpres1 hpres2⟩
    · -- handle_infix_op
      intro op lhe rhe s r s' hcvl hcvr hres
      simp only [handle_infix_op] at hres
      rcases hpe1 : process_expression arch fuel lhe s with ⟨r1, st1⟩
      rw [hpe1] at hres
      obtain ⟨hac1, hpres1, hvar1⟩ := ihE lhe s r1 st1 hcvl hpe1
      cases r1 with
      | error e0 =>
        simp only [bindE] at hres
        injection hres with h1 h2
        subst h1; subst h2
        exact ⟨hac1, hpres1, fun a ha => absurd ha (by simp)⟩
      | ok la =>
        simp only [bindE] at hres
        rcases hpe2 : process_expression arch fuel rhe st1 with ⟨r2, st2⟩
        rw [hpe2] at hres
        obtain ⟨hac2, hpres2, hvar2⟩ := ihE rhe st1 r2 st2
          (constVarExpr_mono _ _ hpres1 rhe hcvr) hpe2
        cases r2 with
        | error e0 =>
          simp only [bindE] at hres
          injection hres with h1 h2
          subst h1; subst h2
          exact ⟨hac2.trans hac1, varPreserved_trans _ _ _ hpres1 hpres2,
            fun a ha => absurd ha (by simp)⟩
        | ok ra =>
          have hpres02 := varPreserved_trans _ _ _ hpres1 hpres2
          have hac02 : st2.ac = s.ac := hac2.trans hac1
          have htl : st2.runtime.get_item_data_type la.name = .ok .Variable := by
            rw [← isVarName_iff]
            exact hpres2 la.name (hvar1 la rfl)
          have htr : st2.runtime.get_item_data_type ra.name = .ok .Variable := by
            rw [← isVarName_iff]
            exact hvar2 ra rfl
          simp only [bindE, readRt, htl, htr] at hres
          rw [if_pos ⟨trivial, trivial⟩] at hres
          cases hevl : expectValue (st2.runtime.get_variable_value la) with
          | error e0 =>
            rw [hevl] at hres
            simp only [bindE] at hres
            injection hres with h1 h2
            subst h1; subst h2
            exact ⟨hac02, hpres02, fun a ha => absurd ha (by simp)⟩
          | ok vl =>
            rw [hevl] at hres
            simp only [bindE, readRt] at hres
            cases hevr : expectValue (st2.runtime.get_variable_value ra) with
            | error e0 =>
              rw [hevr] at hres
              simp only [bindE] at hres
              injection hres with h1 h2
              subst h1; subst h2
              exact ⟨hac02, hpres02, fun a ha => absurd ha (by simp)⟩
            | ok vr =>
              rw [hevr] at hres
              simp only [bindE, pureE] at hres
              cases hop : execute_op vl vr op with
              | error e0 =>
                rw [hop] at hres
                simp only [bindE] at hres
                injection hres with h1 h2
                subst h1; subst h2
                exact ⟨hac02, hpres02, fun a ha => absurd ha (by simp)⟩
              | ok res =>
                rw [hop] at hres
                simp only [bindE, modifyRtA] at hres
                cases hd : st2.runtime.declare_random_item .Variable with
                | error e0 =>
                  rw [hd] at hres
                  simp only [bindE] at hres
                  injection hres with h1 h2
                  subst h1; subst h2
                  exact ⟨hac02, hpres02, fun a ha => absurd ha (by simp)⟩
                | ok p =>
                  obtain ⟨acc2, rt3⟩ := p
                  obtain ⟨hacc, c, rest, hf, hlk, hrt3⟩ :=
                    declare_random_item_var_inv _ _ _ hd
                  have hfr3 : rt3.frames = { c with items :=
                      c.items ++ [(acc2.name, .varItem [] [none])] } :: rest := by
                    rw [hrt3]
                  have hpresD := varPreserved_append_var st2.runtime rt3 c rest
                    acc2.name [] [none] hf hfr3
                  have hset := set_after_declare_scalar rt3 c rest acc2.name none
                    (some res) hfr3 hlk
                  have hacceq : (⟨acc2.name, []⟩ : DataAccess) = acc2 := by rw [hacc]
                  rw [hacceq] at hset
                  rw [hd] at hres
                  simp only [bindE, modifyRt, hset] at hres
                  injection hres with h1 h2
                  subst h1; subst h2
                  refine ⟨hac02, ?_, ?_⟩
                  · exact varPreserved_trans _ _ _ hpres02 (varPreserved_trans _ _ _
                      hpresD (varPreserved_set_variable rt3 acc2 (some res) _ hset))
                  · intro a ha
                    obtain rfl : acc2 = a := by simpa using ha
                    rw [isVarName_iff]
                    exact get_item_data_type_head _
                      ⟨c.inherited, c.items ++ [(acc2.name, .varItem [] [some res])]⟩
                      rest acc2.name (.varItem [] [some res]) rfl
                      (lookupItem_append_self _ _ _ hlk)

/-- **C1.** For every infix operation: (1) if both operands resolve to
items of type `Variable`, the evaluator returns a fresh anonymous variable
whose value equals `execute_op v_l v_r op`, and the circuit — signals,
gates, connections — is left completely unchanged; (2) otherwise it
registers exactly one fresh output signal and appends exactly one gate
`op(l_id, r_id) → out_id`, returning the output signal's access (the
operand coercions add no gates and no connections, only possibly constant
signals); (3) in particular an expression built only from constants and
variables adds no gates and no signals to the circuit. -/
theorem handle_infix_op_spec (arch : ProgramArchive) :
    (∀ fuel op lhe rhe s la ra s1 s2 vl vr res acc rt3,
      process_expression arch fuel lhe s = (.ok la, s1) →
      process_expression arch fuel rhe s1 = (.ok ra, s2) →
      s2.runtime.get_item_data_type la.name = .ok .Variable →
      s2.runtime.get_item_data_type ra.name = .ok .Variable →
      s2.runtime.get_variable_value la = .ok (some vl) →
      s2.runtime.get_variable_value ra = .ok (some vr) →
      execute_op vl vr op = .ok res →
      s2.runtime.declare_random_item .Variable = .ok (acc, rt3) →
      ∃ rt4, handle_infix_op arch (fuel + 1) op lhe rhe s = (.ok acc, ⟨s2.ac, rt4⟩) ∧
        rt4.get_variable_value acc = .ok (some res) ∧
        rt4.get_item_data_type acc.name = .ok .Variable ∧
        lookupItem (currentFrameItems s2.runtime) acc.name = none) ∧
    (∀ fuel op lhe rhe s la ra s1 s2 tl tr lid rid ac1 ac2 outAcc rt3,
      process_expression arch fuel lhe s = (.ok la, s1) →
      process_expression arch fuel rhe s1 = (.ok ra, s2) →
      s2.runtime.get_item_data_type la.name = .ok tl →
      s2.runtime.get_item_data_type ra.name = .ok tr →
      ¬(tl = DataType.Variable ∧ tr = DataType.Variable) →
      get_signal_for_access s2.ac s2.runtime la = .ok (lid, ac1) →
      get_signal_for_access ac1 s2.runtime ra = .ok (rid, ac2) →
      s2.runtime.declare_random_item .Signal = .ok (outAcc, rt3) →
      s2.runtime.signalCounter ∉ ac2.signals →
      lid ∈ ac2.signals → rid ∈ ac2.signals →
      handle_infix_op arch (fuel + 1) op lhe rhe s =
        (.ok outAcc, ⟨⟨ac2.signals ++ [s2.runtime.signalCounter],
          ac2.gates ++ [⟨AGateType.fromOp op, lid, rid, s2.runtime.signalCounter⟩],
          ac2.connections⟩, rt3⟩) ∧
      ac2.gates = s2.ac.gates ∧ ac2.connections = s2.ac.connections ∧
      (∃ cs, ac2.signals = s2.ac.signals ++ cs) ∧
      rt3.get_item_data_type outAcc.name = .ok .Signal) ∧
    (∀ fuel e s r s', constVarExpr s.runtime e = true →
      process_expression arch fuel e s = (r, s') →
      s'.ac.gates = s.ac.gates ∧ s'.ac.signals = s.ac.signals ∧
      s'.ac.connections = s.ac.connections) := by
  refine ⟨?_, ?_, ?_⟩
  · intro fuel op lhe rhe s la ra s1 s2 vl vr res acc rt3 hl hr htl htr hvl hvr hop hdecl
    exact handle_infix_op_var_var arch fuel op lhe rhe s la ra s1 s2 vl vr res acc rt3
      hl hr htl htr hvl hvr hop hdecl
  · intro fuel op lhe rhe s la ra s1 s2 tl tr lid rid ac1 ac2 outAcc rt3
      hl hr htl htr hnotvar hcl hcr hdecl hfresh hlid hrid
    exact handle_infix_op_gate arch fuel op lhe rhe s la ra s1 s2 tl tr lid rid ac1 ac2
      outAcc rt3 hl hr htl htr hnotvar hcl hcr hdecl hfresh hlid hrid
  · intro fuel e s r s' hcv hres
    have hac := ((const_var_no_circuit arch fuel).1 e s r s' hcv hres).1
    exact ⟨by rw [hac], by rw [hac], by rw [hac]⟩

/-- Witness for C1: `2 + 3` evaluates to the anonymous variable `5` with
no circuit change; `x + x` over the signal `x` emits one `Add` gate and
one fresh output signal; the constant-only `2 + 3` leaves the circuit's
three stores untouched. -/
theorem handle_infix_op_spec_witness :
    (∃ rt4, handle_infix_op archEmpty 3 .Add (.Number 2) (.Number 3) stInit =
        (.ok anonAcc2, ⟨stC1b.ac, rt4⟩) ∧
      rt4.get_variable_value anonAcc2 = .ok (some 5) ∧
      rt4.get_item_data_type anonAcc2.name = .ok .Variable ∧
      lookupItem (currentFrameItems stC1b.runtime) anonAcc2.name = none) ∧
    (handle_infix_op archEmpty 4 .Add (.Variable ("x") []) (.Variable ("x") []) stSigX =
        (.ok anonAcc0, ⟨⟨stSigX.ac.signals ++ [stSigX.runtime.signalCounter],
          stSigX.ac.gates ++
            [⟨AGateType.fromOp .Add, 1, 1, stSigX.runtime.signalCounter⟩],
          stSigX.ac.connections⟩, rtSigXdecl⟩) ∧
      stSigX.ac.gates = stSigX.ac.gates ∧
      stSigX.ac.connections = stSigX.ac.connections ∧
      (∃ cs, stSigX.ac.signals = stSigX.ac.signals ++ cs) ∧
      rtSigXdecl.get_item_data_type anonAcc0.name = .ok .Signal) ∧
    (stC1c.ac.gates = stInit.ac.gates ∧ stC1c.ac.signals = stInit.ac.signals ∧
      stC1c.ac.connections = stInit.ac.connections) :=
  ⟨(handle_infix_op_spec archEmpty).1 2 .Add (.Number 2) (.Number 3) stInit
      anonAcc0 anonAcc1 stC1a stC1b 2 3 5 anonAcc2 rtC1decl
      (by decide) (by decide) (by decide) (by decide) (by decide) (by decide)
      (by decide) (by decide),
   (handle_infix_op_spec archEmpty).2.1 3 .Add (.Variable ("x") []) (.Variable ("x") [])
      stSigX xAccess xAccess stSigX stSigX .Signal .Signal 1 1 stSigX.ac stSigX.ac
      anonAcc0 rtSigXdecl
      (by decide) (by decide) (by decide) (by decide) (by decide) (by decide)
      (by decide) (by decide) (by decide) (by decide) (by decide),
   (handle_infix_op_spec archEmpty).2.2 4 (.InfixOp (.Number 2) .Add (.Number 3))
      stInit (.ok anonAcc2) stC1c (by decide) (by decide)⟩

/-- **C5.** A call to a function declares a fresh uniquely-named variable
in the caller's frame and returns its access; that variable holds the
value stored in the reserved `RETURN` variable of the callee frame when
the body finished (so `v` if the body executed `return v`), and holds
`none` when `RETURN` is absent (the lookup error is swallowed).  In turn,
a `Return` statement declares the reserved `RETURN` variable in the
current frame and stores the evaluated value there. -/
theorem handle_call_function_return_spec (arch : ProgramArchive) :
    (∀ fuel id args s fd vals s1 rt2 s4 cf restf c5 rest5 fr,
      arch.get_function id = some fd →
      eval_call_args arch fuel args s = (.ok vals, s1) →
      bind_params (List.zip fd.params vals)
        ⟨⟨false, []⟩ :: s1.runtime.frames, s1.runtime.signalCounter,
          s1.runtime.nameCounter⟩ = .ok rt2 →
      process_statements arch fuel fd.body ⟨s1.ac, rt2⟩ = (.ok (), s4) →
      s4.runtime.frames = cf :: restf →
      restf = c5 :: rest5 →
      lookupItem c5.items
        (id ++ "_" ++ RETURN_VAR ++ "_" ++ Nat.repr s4.runtime.nameCounter) = none →
      fr = (match s4.runtime.get_variable_value ⟨RETURN_VAR, []⟩ with
        | .ok v => v
        | .error _ => none) →
      ∃ rt7, handle_call arch (fuel + 2) id args s =
          (.ok (⟨id ++ "_" ++ RETURN_VAR ++ "_" ++ Nat.repr s4.runtime.nameCounter,
            []⟩ : DataAccess), ⟨s4.ac, rt7⟩) ∧
        rt7.get_variable_value
          ⟨id ++ "_" ++ RETURN_VAR ++ "_" ++ Nat.repr s4.runtime.nameCounter, []⟩ =
          .ok fr) ∧
    (∀ fuel value s acc s1 v rt2,
      process_expression arch fuel value s = (.ok acc, s1) →
      s1.runtime.get_variable_value acc = .ok (some v) →
      s1.runtime.declare_item .Variable RETURN_VAR [] = .ok rt2 →
      ∃ rt3, process_statement arch (fuel + 1) (.Return value) s =
          (.ok (), ⟨s1.ac, rt3⟩) ∧
        rt3.get_variable_value ⟨RETURN_VAR, []⟩ = .ok (some v)) := by
  constructor
  · intro fuel id args s fd vals s1 rt2 s4 cf restf c5 rest5 fr
      hfn hargs hbind hbody hfr4 hrestf hlk5 hfrdef
    subst hrestf
    have hpop : Runtime.pop_context s4.runtime false =
        .ok ⟨c5 :: rest5, s4.runtime.signalCounter, s4.runtime.nameCounter⟩ := by
      simp [Runtime.pop_context, hfr4]
    have hdecl5 : Runtime.declare_item
        ⟨c5 :: rest5, s4.runtime.signalCounter, s4.runtime.nameCounter + 1⟩ .Variable
        (id ++ "_" ++ RETURN_VAR ++ "_" ++ Nat.repr s4.runtime.nameCounter) [] =
        .ok ⟨{ c5 with items := c5.items ++
            [(id ++ "_" ++ RETURN_VAR ++ "_" ++ Nat.repr s4.runtime.nameCounter,
              .varItem [] [none])] } :: rest5,
          s4.runtime.signalCounter, s4.runtime.nameCounter + 1⟩ := by
      simp [Runtime.declare_item, hlk5, prodDims, List.replicate]
    have hset := set_after_declare_scalar
      ⟨{ c5 with items := c5.items ++
          [(id ++ "_" ++ RETURN_VAR ++ "_" ++ Nat.repr s4.runtime.nameCounter,
            .varItem [] [none])] } :: rest5,
        s4.runtime.signalCounter, s4.runtime.nameCounter + 1⟩
      c5 rest5 (id ++ "_" ++ RETURN_VAR ++ "_" ++ Nat.repr s4.runtime.nameCounter)
      none fr rfl hlk5
    refine ⟨⟨{ c5 with items := c5.items ++
        [(id ++ "_" ++ RETURN_VAR ++ "_" ++ Nat.repr s4.runtime.nameCounter,
          .varItem [] [fr])] } :: rest5,
      s4.runtime.signalCounter, s4.runtime.nameCounter + 1⟩, ?_, ?_⟩
    · simp only [handle_call, hfn, handle_call_body, hargs, bindE, modifyRt,
        Runtime.push_context, hbind, hbody, gather_return, if_pos, modifyRtA,
        Runtime.generate_u32, hpop, hdecl5, ← hfrdef, hset]
    · exact get_variable_value_head_scalar _
        ⟨c5.inherited, c5.items ++
          [(id ++ "_" ++ RETURN_VAR ++ "_" ++ Nat.repr s4.runtime.nameCounter,
            .varItem [] [fr])]⟩ rest5
        (id ++ "_" ++ RETURN_VAR ++ "_" ++ Nat.repr s4.runtime.nameCounter) fr rfl
        (lookupItem_append_self _ _ _ hlk5)
  · intro fuel value s acc s1 v rt2 hpe hval hdecl
    obtain ⟨c, rest, hf, hlk, hrt2⟩ := declare_item_var_scalar_inv _ _ _ hdecl
    have hfr2 : rt2.frames = { c with items :=
        c.items ++ [(RETURN_VAR, .varItem [] [none])] } :: rest := by rw [hrt2]
    have hset := set_after_declare_scalar rt2 c rest RETURN_VAR none (some v) hfr2 hlk
    refine ⟨⟨{ c with items := c.items ++ [(RETURN_VAR, .varItem [] [some v])] } :: rest,
      rt2.signalCounter, rt2.nameCounter⟩, ?_, ?_⟩
    · simp only [process_statement, hpe, bindE, readRt, hval, expectValue, modifyRt,
        hdecl, hset]
    · exact get_variable_value_head_scalar _
        ⟨c.inherited, c.items ++ [(RETURN_VAR, .varItem [] [some v])]⟩ rest
        RETURN_VAR (some v) rfl (lookupItem_append_self _ _ _ hlk)

/-- Witness for C5: calling `f() { return 7; }` from the initial state
yields a fresh caller-frame variable holding `7`; and `return 1;` declares
`RETURN` with value `1`. -/
theorem handle_call_function_return_spec_witness :
    (∃ rt7, handle_call arch5 6 ("f") [] stInit =
        (.ok (⟨"f" ++ "_" ++ RETURN_VAR ++ "_" ++
          Nat.repr st5Body.runtime.nameCounter, []⟩ : DataAccess),
          ⟨st5Body.ac, rt7⟩) ∧
      rt7.get_variable_value
        ⟨"f" ++ "_" ++ RETURN_VAR ++ "_" ++ Nat.repr st5Body.runtime.nameCounter,
          []⟩ = .ok (some 7)) ∧
    (∃ rt3, process_statement arch5 3 (.Return (.Number 1)) stInit =
        (.ok (), ⟨st5Ret.ac, rt3⟩) ∧
      rt3.get_variable_value ⟨RETURN_VAR, []⟩ = .ok (some 1)) :=
  ⟨(handle_call_function_return_spec arch5).1 4 ("f") [] stInit
      ⟨[], [.Return (.Number 7)]⟩ [] stInit rtPush5 st5Body
      ⟨false, [("random_0", .varItem [] [some 7]),
        ("RETURN", .varItem [] [some 7])]⟩
      [⟨false, []⟩] ⟨false, []⟩ [] (some 7)
      (by rfl) (by decide) (by decide) (by decide) (by decide) (by decide)
      (by decide) (by decide),
   (handle_call_function_return_spec arch5).2 2 (.Number 1) stInit anonAcc0 st5Ret 1
      rt5RetDecl (by decide) (by decide) (by decide)⟩

/-- All argument expressions are evaluated: a successful argument pass
yields exactly one value per argument expression. -/
theorem eval_call_args_length (arch : ProgramArchive) :
    ∀ (args : List Expression) fuel s vals s1,
      eval_call_args arch fuel args s = (.ok vals, s1) →
      vals.length = args.length := by
  intro args
  induction args with
  | nil =>
    intro fuel s vals s1 h
    cases fuel with
    | zero =>
      simp only [eval_call_args] at h
      injection h with h1 _
      exact absurd h1 (by simp)
    | succ fuel =>
      simp only [eval_call_args] at h
      injection h with h1 _
      obtain rfl : ([] : List Nat) = vals := Except.ok.inj h1
      rfl
  | cons a rest ih =>
    intro fuel s vals s1 h
    cases fuel with
    | zero =>
      simp only [eval_call_args] at h
      injection h with h1 _
      exact absurd h1 (by simp)
    | succ fuel =>
      simp only [eval_call_args] at h
      rcases hpe : process_expression arch fuel a s with ⟨r1, t1⟩
      rw [hpe] at h
      cases r1 with
      | error e =>
        simp only [bindE] at h
        injection h with h1 _
        exact absurd h1 (by simp)
      | ok acc =>
        simp only [bindE, readRt] at h
        cases hev : expectValue (t1.runtime.get_variable_value acc) with
        | error e =>
          rw [hev] at h
          simp only [bindE] at h
          injection h with h1 _
          exact absurd h1 (by simp)
        | ok v =>
          rw [hev] at h
          simp only [bindE] at h
          rcases hrec : eval_call_args arch fuel rest t1 with ⟨r2, t2⟩
          rw [hrec] at h
          cases r2 with
          | error e =>
            simp only [bindE] at h
            injection h with h1 _
            exact absurd h1 (by simp)
          | ok vs =>
            simp only [bindE] at h
            injection h with h1 _
            obtain rfl : v :: vs = vals := Except.ok.inj h1
            simp [ih fuel t1 vs t2 hrec]

/-- The binding loop declares exactly the zipped prefix of parameters into
the fresh frame (the zip truncates to the shorter list) and never fails on
a length mismatch. -/
theorem bind_params_zip_spec :
    ∀ (ps : List (String × Nat)) (rt : Runtime) c rest,
      rt.frames = c :: rest →
      (∀ p ∈ ps, lookupItem c.items p.1 = none) →
      (ps.map Prod.fst).Nodup →
      bind_params ps rt =
        .ok ⟨⟨c.inherited, c.items ++ ps.map (fun p => (p.1, Item.varItem [] [some p.2]))⟩ :: rest, rt.signalCounter, rt.nameCounter⟩ := by
  intro ps
  induction ps with
  | nil =>
    intro rt c rest hf _ _
    obtain ⟨frames, sc, nc⟩ := rt
    simp only at hf
    subst hf
    simp [bind_params]
  | cons p ps' ih =>
    intro rt c rest hf hfr hnd
    obtain ⟨name, v⟩ := p
    have hlk : lookupItem c.items name = none := hfr (name, v) (by simp)
    have hd : rt.declare_item .Variable name [] =
        .ok ⟨{ c with items := c.items ++ [(name, .varItem [] [none])] } :: rest,
          rt.signalCounter, rt.nameCounter⟩ := by
      simp [Runtime.declare_item, hf, hlk, prodDims, List.replicate]
    have hset := set_after_declare_scalar
      ⟨{ c with items := c.items ++ [(name, .varItem [] [none])] } :: rest,
        rt.signalCounter, rt.nameCounter⟩ c rest name none (some v) rfl hlk
    simp only [List.map_cons, List.nodup_cons] at hnd
    have hrec := ih
      ⟨{ c with items := c.items ++ [(name, .varItem [] [some v])] } :: rest,
        rt.signalCounter, rt.nameCounter⟩
      { c with items := c.items ++ [(name, .varItem [] [some v])] } rest rfl
      (by
        intro q hq
        have hne : name ≠ q.1 := by
          intro heq
          exact hnd.1 (heq ▸ List.mem_map_of_mem Prod.fst hq)
        rw [lookupItem_append_of_ne _ _ _ _ hne]
        exact hfr q (by simp [hq]))
      hnd.2
    simp only [bind_params, hd, hset, hrec]
    simp

/-- **C9.** `handle_call` raises no arity error on a parameter/argument
length mismatch: every argument expression is evaluated in the caller's
frame (one value per argument, surplus values silently discarded by the
zip), and the binding loop declares exactly the
`min (#params) (#arguments)` zipped parameters in the fresh frame, never
failing at binding time because of the mismatch. -/
theorem call_arity_mismatch_spec (arch : ProgramArchive) :
    (∀ (args : List Expression) fuel s vals s1,
      eval_call_args arch fuel args s = (.ok vals, s1) →
      vals.length = args.length) ∧
    (∀ (names : List String) (vals : List Nat) (rt : Runtime) c rest,
      rt.frames = c :: rest →
      (∀ p ∈ List.zip names vals, lookupItem c.items p.1 = none) →
      ((List.zip names vals).map Prod.fst).Nodup →
      bind_params (List.zip names vals) rt =
        .ok ⟨⟨c.inherited, c.items ++ (List.zip names vals).map (fun p => (p.1, Item.varItem [] [some p.2]))⟩ :: rest, rt.signalCounter, rt.nameCounter⟩ ∧
      ((List.zip names vals).map
          (fun p => (p.1, Item.varItem [] [some p.2]))).length =
        min names.length vals.length) := by
  refine ⟨eval_call_args_length arch, ?_⟩
  intro names vals rt c rest hf hfr hnd
  refine ⟨bind_params_zip_spec (List.zip names vals) rt c rest hf hfr hnd, ?_⟩
  simp [List.length_zip]

/-- Witness for C9: three argument expressions evaluate to exactly three
values; binding two parameter names against one value zips down to a
single binding and succeeds with no arity error. -/
theorem call_arity_mismatch_spec_witness :
    ([1, 2, 3] : List Nat).length = [Expression.Number 1, Expression.Number 2, Expression.Number 3].length ∧
    (bind_params (List.zip ["a", "b"] [5]) stInit.runtime =
        .ok ⟨⟨(⟨false, []⟩ : Context).inherited, (⟨false, []⟩ : Context).items ++ (List.zip ["a", "b"] [5]).map (fun p => (p.1, Item.varItem [] [some p.2]))⟩ :: [], stInit.runtime.signalCounter, stInit.runtime.nameCounter⟩ ∧
      ((List.zip ["a", "b"] [5]).map (fun p => (p.1, Item.varItem [] [some p.2]))).length =
        min (["a", "b"] : List String).length ([5] : List Nat).length) :=
  ⟨(call_arity_mismatch_spec archEmpty).1
      [Expression.Number 1, Expression.Number 2, Expression.Number 3] 4 stInit [1, 2, 3]
      ⟨⟨[], [], []⟩, ⟨[⟨false, [("random_0", Item.varItem [] [some 1]), ("random_1", Item.varItem [] [some 2]), ("random_2", Item.varItem [] [some 3])]⟩], 1, 3⟩⟩
      (by decide),
   (call_arity_mismatch_spec archEmpty).2 ["a", "b"] [5] stInit.runtime ⟨false, []⟩ []
      (by decide) (by decide) (by decide)⟩

/-- Circuit extension is reflexive. -/
theorem circuitExtends_refl (c : ArithmeticCircuit) : circuitExtends c c :=
  ⟨⟨[], by simp⟩, ⟨[], by simp⟩, ⟨[], by simp⟩⟩

/-- Circuit extension is transitive. -/
theorem circuitExtends_trans {a b c : ArithmeticCircuit}
    (h1 : circuitExtends a b) (h2 : circuitExtends b c) : circuitExtends a c := by
  obtain ⟨⟨t1, ht1⟩, ⟨t2, ht2⟩, ⟨t3, ht3⟩⟩ := h1
  obtain ⟨⟨u1, hu1⟩, ⟨u2, hu2⟩, ⟨u3, hu3⟩⟩ := h2
  exact ⟨⟨t1 ++ u1, by simp [hu1, ht1]⟩, ⟨t2 ++ u2, by simp [hu2, ht2]⟩,
    ⟨t3 ++ u3, by simp [hu3, ht3]⟩⟩

/-- Sequencing preserves circuit extension: if the first step only extends
the circuit and every continuation only extends it, so does the
composition — in the error case too, because `bindE` keeps the state
reached so far. -/
theorem bindE_extends {α β : Type} {x : EResult α} {f : α → EState → EResult β}
    {c : ArithmeticCircuit}
    (hx : circuitExtends c x.2.ac)
    (hf : ∀ a s1, circuitExtends s1.ac (f a s1).2.ac) :
    circuitExtends c (bindE x f).2.ac := by
  rcases x with ⟨r, s⟩
  cases r with
  | error e => exact hx
  | ok a =>
    simp only [bindE]
    exact circuitExtends_trans hx (hf a s)

/-- A read-only runtime step leaves the circuit unchanged. -/
theorem readRt_extends {α : Type} (f : Runtime → Except ProgramError α) (s : EState) :
    circuitExtends s.ac (readRt f s).2.ac := circuitExtends_refl _

/-- A pure step leaves the circuit unchanged. -/
theorem pureE_extends {α : Type} (x : Except ProgramError α) (s : EState) :
    circuitExtends s.ac (pureE x s).2.ac := circuitExtends_refl _

/-- A runtime mutation leaves the circuit unchanged. -/
theorem modifyRt_extends (f : Runtime → Except ProgramError Runtime) (s : EState) :
    circuitExtends s.ac (modifyRt f s).2.ac := by
  unfold modifyRt
  split
  · exact circuitExtends_refl _
  · exact circuitExtends_refl _

/-- A value-returning runtime mutation leaves the circuit unchanged. -/
theorem modifyRtA_extends {α : Type} (f : Runtime → Except ProgramError (α × Runtime))
    (s : EState) : circuitExtends s.ac (modifyRtA f s).2.ac := by
  unfold modifyRtA
  split
  · exact circuitExtends_refl _
  · exact circuitExtends_refl _

/-- `add_signal` only appends. -/
theorem add_signal_extends {ac ac2 : ArithmeticCircuit} {id : Nat}
    (h : ac.add_signal id = .ok ac2) : circuitExtends ac ac2 := by
  unfold ArithmeticCircuit.add_signal at h
  split at h
  · exact absurd h (by simp)
  · injection h with h
    subst h
    exact ⟨⟨[id], rfl⟩, ⟨[], by simp⟩, ⟨[], by simp⟩⟩

/-- `add_const` only appends. -/
theorem add_const_extends {ac ac2 : ArithmeticCircuit} {v : Nat}
    (h : ac.add_const v = .ok ac2) : circuitExtends ac ac2 := by
  unfold ArithmeticCircuit.add_const at h
  split at h
  · injection h with h
    subst h
    exact circuitExtends_refl _
  · injection h with h
    subst h
    exact ⟨⟨[v], rfl⟩, ⟨[], by simp⟩, ⟨[], by simp⟩⟩

/-- `add_gate` only appends. -/
theorem add_gate_extends {ac ac2 : ArithmeticCircuit} {g : AGateType} {l r o : Nat}
    (h : ac.add_gate g l r o = .ok ac2) : circuitExtends ac ac2 := by
  unfold ArithmeticCircuit.add_gate at h
  split at h
  · injection h with h
    subst h
    exact ⟨⟨[], by simp⟩, ⟨[⟨g, l, r, o⟩], rfl⟩, ⟨[], by simp⟩⟩
  · exact absurd h (by simp)

/-- `add_connection` only appends. -/
theorem add_connection_extends {ac ac2 : ArithmeticCircuit} {src dst : Nat}
    (h : ac.add_connection src dst = .ok ac2) : circuitExtends ac ac2 := by
  unfold ArithmeticCircuit.add_connection at h
  split at h
  · injection h with h
    subst h
    exact ⟨⟨[], by simp⟩, ⟨[], by simp⟩, ⟨[(src, dst)], rfl⟩⟩
  · exact absurd h (by simp)

/-- A circuit mutation through an extending function only extends. -/
theorem modifyAc_extends {f : ArithmeticCircuit → Except ProgramError ArithmeticCircuit}
    (hf : ∀ ac ac2, f ac = .ok ac2 → circuitExtends ac ac2) (s : EState) :
    circuitExtends s.ac (modifyAc f s).2.ac := by
  unfold modifyAc
  rcases hres : f s.ac with e | ac1
  · exact circuitExtends_refl _
  · exact hf _ _ hres

/-- `get_signal_for_access` only extends the circuit (it adds at most one
constant signal). -/
theorem get_signal_for_access_extends {ac : ArithmeticCircuit} {rt : Runtime}
    {access : DataAccess} {id : Nat} {ac2 : ArithmeticCircuit}
    (h : get_signal_for_access ac rt access = .ok (id, ac2)) : circuitExtends ac ac2 := by
  unfold get_signal_for_access at h
  split at h
  · exact absurd h (by simp)
  · split at h
    · exact absurd h (by simp)
    · injection h with h
      injection h with h1 h2
      subst h2
      exact circuitExtends_refl _
  · split at h
    · exact absurd h (by simp)
    · exact absurd h (by simp)
    · split at h
      · exact absurd h (by simp)
      · rename_i hc
        injection h with h
        injection h with h1 h2
        subst h2
        exact add_const_extends hc
  · split at h
    · exact absurd h (by simp)
    · injection h with h
      injection h with h1 h2
      subst h2
      exact circuitExtends_refl _

/-- The signal coercion step only extends the circuit. -/
theorem coerceSignal_extends (access : DataAccess) (s : EState) :
    circuitExtends s.ac (coerceSignal access s).2.ac := by
  unfold coerceSignal
  rcases hres : get_signal_for_access s.ac s.runtime access with e | p
  · exact circuitExtends_refl _
  · rcases p with ⟨i, ac1⟩
    exact get_signal_for_access_extends hres

/-- The signal-registration loop only extends the circuit. -/
theorem register_signal_loop_extends (rt : Runtime) (name : String) (dims : List Nat) :
    ∀ fuel indices ac,
      circuitExtends ac (register_signal_loop rt name dims fuel indices ac).2 := by
  intro fuel
  induction fuel with
  | zero =>
    intro indices ac
    simp only [register_signal_loop]
    exact circuitExtends_refl _
  | succ fuel ih =>
    intro indices ac
    simp only [register_signal_loop]
    rcases hsig : rt.get_signal_id ⟨name, u32_to_access indices⟩ with e | signal_id
    · simp only [hsig]
      exact circuitExtends_refl _
    · simp only [hsig]
      rcases hadd : ac.add_signal signal_id with e | ac1
      · simp only [hadd]
        exact circuitExtends_refl _
      · simp only [hadd]
        rcases hinc : increment_indices indices dims with _ | indices2
        · simp only [hinc]
          exact add_signal_extends hadd
        · simp only [hinc]
          exact circuitExtends_trans (add_signal_extends hadd) (ih indices2 ac1)

/-- `gather_return` never touches the state. -/
theorem gather_return_state (arch : ProgramArchive) (id : String) (is_function : Bool)
    (s : EState) : (gather_return arch id is_function s).2 = s := by
  unfold gather_return
  split
  · rfl
  · split
    · rfl
    · split
      · rfl
      · rfl

/-- `gather_return` only extends the circuit (it leaves it unchanged). -/
theorem gather_return_extends (arch : ProgramArchive) (id : String) (is_function : Bool)
    (s : EState) : circuitExtends s.ac (gather_return arch id is_function s).2.ac := by
  rw [gather_return_state]
  exact circuitExtends_refl _

/-- Every interpreter function only extends the circuit, in the success
and in the error case alike: signals, gates and connections are
append-only stores. -/
theorem circuit_monotone (arch : ProgramArchive) : ∀ fuel : Nat,
    (∀ stmts s, circuitExtends s.ac (process_statements arch fuel stmts s).2.ac) ∧
    (∀ stmt s, circuitExtends s.ac (process_statement arch fuel stmt s).2.ac) ∧
    (∀ cond stmt s, circuitExtends s.ac (while_loop arch fuel cond stmt s).2.ac) ∧
    (∀ e s, circuitExtends s.ac (process_expression arch fuel e s).2.ac) ∧
    (∀ es s, circuitExtends s.ac (process_expression_list arch fuel es s).2.ac) ∧
    (∀ args s, circuitExtends s.ac (eval_call_args arch fuel args s).2.ac) ∧
    (∀ id args s, circuitExtends s.ac (handle_call arch fuel id args s).2.ac) ∧
    (∀ id isf ns body args s,
      circuitExtends s.ac (handle_call_body arch fuel id isf ns body args s).2.ac) ∧
    (∀ op l r s, circuitExtends s.ac (handle_infix_op arch fuel op l r s).2.ac) ∧
    (∀ name acc s, circuitExtends s.ac (build_access arch fuel name acc s).2.ac) ∧
    (∀ acc s, circuitExtends s.ac (build_access_vec arch fuel acc s).2.ac) := by
  intro fuel
  induction fuel with
  | zero =>
    exact ⟨fun _ s => circuitExtends_refl _, fun _ s => circuitExtends_refl _,
      fun _ _ s => circuitExtends_refl _, fun _ s => circuitExtends_refl _,
      fun _ s => circuitExtends_refl _, fun _ s => circuitExtends_refl _,
      fun _ _ s => circuitExtends_refl _, fun _ _ _ _ _ s => circuitExtends_refl _,
      fun _ _ _ s => circuitExtends_refl _, fun _ _ s => circuitExtends_refl _,
      fun _ s => circuitExtends_refl _⟩
  | succ fuel ih =>
    obtain ⟨ihSS, ihS, ihW, ihE, ihEL, ihECA, ihHC, ihHCB, ihHI, ihBA, ihBAV⟩ := ih
    refine ⟨?_, ?_, ?_, ?_, ?_, ?_, ?_, ?_, ?_, ?_, ?_⟩
    · intro stmts s
      cases stmts with
      | nil => exact circuitExtends_refl _
      | cons stmt rest =>
        simp only [process_statements]
        exact bindE_extends (ihS stmt s) (fun _ s1 => ihSS rest s1)
    · intro stmt s
      cases stmt with
      | Block stmts =>
        exact ihSS stmts s
      | InitializationBlock inits =>
        exact ihSS inits s
      | Declaration xtype dname dimensions =>
        simp only [process_statement]
        refine bindE_extends (ihEL dimensions s) ?_
        intro dim_access s1
        refine bindE_extends (readRt_extends _ s1) ?_
        intro dvals s2
        refine bindE_extends (modifyRt_extends _ s2) ?_
        intro u s3
        split
        · split
          · refine bindE_extends (readRt_extends _ s3) ?_
            intro signal_id s4
            exact modifyAc_extends (fun ac ac2 h => add_signal_extends h) s4
          · have h := register_signal_loop_extends s3.runtime dname dvals
              (prodDims dvals + 1) (List.replicate dvals.length 0) s3.ac
            rcases hrl : register_signal_loop s3.runtime dname dvals
              (prodDims dvals + 1) (List.replicate dvals.length 0) s3.ac with ⟨r, ac1⟩
            rw [hrl] at h
            cases r
            · exact h
            · exact h
        · exact circuitExtends_refl _
      | While cond body =>
        simp only [process_statement]
        refine bindE_extends (modifyRt_extends _ s) ?_
        intro u s1
        refine bindE_extends (ihW cond body s1) ?_
        intro u2 s2
        exact modifyRt_extends _ s2
      | IfThenElse cond ifc elsec =>
        simp only [process_statement]
        refine bindE_extends (ihE cond s) ?_
        intro access s1
        refine bindE_extends (readRt_extends _ s1) ?_
        intro result s2
        split
        · cases elsec with
          | some els =>
            refine bindE_extends (modifyRt_extends _ s2) ?_
            intro u s3
            refine bindE_extends (ihS els s3) ?_
            intro u2 s4
            exact modifyRt_extends _ s4
          | none => exact circuitExtends_refl _
        · refine bindE_extends (modifyRt_extends _ s2) ?_
          intro u s3
          refine bindE_extends (ihS ifc s3) ?_
          intro u2 s4
          exact modifyRt_extends _ s4
      | Substitution var access op rhe =>
        simp only [process_statement]
        refine bindE_extends (ihBA var access s) ?_
        intro lh s1
        refine bindE_extends (ihE rhe s1) ?_
        intro rh s2
        refine bindE_extends (readRt_extends _ s2) ?_
        intro dt s3
        cases dt with
        | Signal =>
          refine bindE_extends (readRt_extends _ s3) ?_
          intro gid s4
          refine bindE_extends (coerceSignal_extends rh s4) ?_
          intro goid s5
          exact modifyAc_extends (fun ac ac2 h => add_connection_extends h) s5
        | Variable =>
          refine bindE_extends (readRt_extends _ s3) ?_
          intro v s4
          exact modifyRt_extends _ s4
        | Component =>
          cases op with
          | AssignVar =>
            refine bindE_extends (readRt_extends _ s3) ?_
            intro m s4
            exact modifyRt_extends _ s4
          | AssignSignal => exact circuitExtends_refl _
          | AssignConstraintSignal =>
            refine bindE_extends (readRt_extends _ s3) ?_
            intro cs s4
            refine bindE_extends (coerceSignal_extends rh s4) ?_
            intro asg s5
            exact modifyAc_extends (fun ac ac2 h => add_connection_extends h) s5
      | Return value =>
        simp only [process_statement]
        refine bindE_extends (ihE value s) ?_
        intro racc s1
        refine bindE_extends (readRt_extends _ s1) ?_
        intro rv s2
        refine bindE_extends (modifyRt_extends _ s2) ?_
        intro u s3
        exact modifyRt_extends _ s3
      | MultSubstitution a b c => exact circuitExtends_refl _
      | UnderscoreSubstitution a b => exact circuitExtends_refl _
      | ConstraintEquality a b => exact circuitExtends_refl _
      | LogCall a => exact circuitExtends_refl _
      | Assert a => exact circuitExtends_refl _
    · intro cond stmt s
      simp only [while_loop]
      refine bindE_extends (ihE cond s) ?_
      intro access s1
      refine bindE_extends (readRt_extends _ s1) ?_
      intro result s2
      split
      · exact circuitExtends_refl _
      · refine bindE_extends (modifyRt_extends _ s2) ?_
        intro u s3
        refine bindE_extends (ihS stmt s3) ?_
        intro u2 s4
        refine bindE_extends (modifyRt_extends _ s4) ?_
        intro u3 s5
        exact ihW cond stmt s5
    · intro e s
      cases e with
      | Call id args => exact ihHC id args s
      | InfixOp lhe op rhe => exact ihHI op lhe rhe s
      | Number v =>
        simp only [process_expression]
        refine bindE_extends (modifyRtA_extends _ s) ?_
        intro access s1
        split
        · refine bindE_extends (modifyRt_extends _ s1) ?_
          intro u s2
          exact circuitExtends_refl _
        · exact circuitExtends_refl _
      | Variable vname acc => exact ihBA vname acc s
      | PrefixOp a => exact circuitExtends_refl _
      | InlineSwitchOp a b c => exact circuitExtends_refl _
      | ParallelOp a => exact circuitExtends_refl _
      | AnonymousComp a b c => exact circuitExtends_refl _
      | ArrayInLine a => exact circuitExtends_refl _
      | Tuple a => exact circuitExtends_refl _
      | UniformArray a b => exact circuitExtends_refl _
    · intro es s
      cases es with
      | nil => exact circuitExtends_refl _
      | cons e rest =>
        simp only [process_expression_list]
        refine bindE_extends (ihE e s) ?_
        intro a s1
        refine bindE_extends (ihEL rest s1) ?_
        intro as1 s2
        exact circuitExtends_refl _
    · intro args s
      cases args with
      | nil => exact circuitExtends_refl _
      | cons arg rest =>
        simp only [eval_call_args]
        refine bindE_extends (ihE arg s) ?_
        intro va s1
        refine bindE_extends (readRt_extends _ s1) ?_
        intro v s2
        refine bindE_extends (ihECA rest s2) ?_
        intro vs s3
        exact circuitExtends_refl _
    · intro id args s
      simp only [handle_call]
      rcases hfn : arch.get_function id with _ | fd
      · rcases htd : arch.get_template id with _ | td
        · exact circuitExtends_refl _
        · exact ihHCB id false td.params td.body args s
      · exact ihHCB id true fd.params fd.body args s
    · intro id isf ns body args s
      simp only [handle_call_body]
      refine bindE_extends (ihECA args s) ?_
      intro vals s1
      refine bindE_extends (modifyRt_extends _ s1) ?_
      intro u s2
      refine bindE_extends (modifyRt_extends _ s2) ?_
      intro u2 s3
      refine bindE_extends (ihSS body s3) ?_
      intro u3 s4
      refine bindE_extends (gather_return_extends arch id isf s4) ?_
      intro ret s5
      refine bindE_extends (modifyRt_extends _ s5) ?_
      intro u4 s6
      refine bindE_extends (modifyRtA_extends _ s6) ?_
      intro n s7
      cases ret with
      | inl fr =>
        refine bindE_extends (modifyRt_extends _ s7) ?_
        intro u5 s8
        refine bindE_extends (modifyRt_extends _ s8) ?_
        intro u6 s9
        exact circuitExtends_refl _
      | inr cr =>
        refine bindE_extends (modifyRt_extends _ s7) ?_
        intro u5 s8
        refine bindE_extends (modifyRt_extends _ s8) ?_
        intro u6 s9
        exact circuitExtends_refl _
    · intro op l r s
      simp only [handle_infix_op]
      refine bindE_extends (ihE l s) ?_
      intro la s1
      refine bindE_extends (ihE r s1) ?_
      intro ra s2
      refine bindE_extends (readRt_extends _ s2) ?_
      intro ldt s3
      refine bindE_extends (readRt_extends _ s3) ?_
      intro rdt s4
      split
      · refine bindE_extends (readRt_extends _ s4) ?_
        intro lv s5
        refine bindE_extends (readRt_extends _ s5) ?_
        intro rv s6
        refine bindE_extends (pureE_extends _ s6) ?_
        intro res s7
        refine bindE_extends (modifyRtA_extends _ s7) ?_
        intro ia s8
        refine bindE_extends (modifyRt_extends _ s8) ?_
        intro u s9
        exact circuitExtends_refl _
      · refine bindE_extends (coerceSignal_extends la s4) ?_
        intro lid s5
        refine bindE_extends (coerceSignal_extends ra s5) ?_
        intro rid s6
        refine bindE_extends (modifyRtA_extends _ s6) ?_
        intro osig s7
        refine bindE_extends (readRt_extends _ s7) ?_
        intro oid s8
        refine bindE_extends (modifyAc_extends (fun ac ac2 h => add_signal_extends h) s8) ?_
        intro u s9
        refine bindE_extends (modifyAc_extends (fun ac ac2 h => add_gate_extends h) s9) ?_
        intro u2 s10
        exact circuitExtends_refl _
    · intro bname acc s
      simp only [build_access]
      refine bindE_extends (ihBAV acc s) ?_
      intro av s1
      exact circuitExtends_refl _
    · intro acc s
      cases acc with
      | nil => exact circuitExtends_refl _
      | cons sub rest =>
        cases sub with
        | ArrayAccess e =>
          simp only [build_access_vec]
          refine bindE_extends (ihE e s) ?_
          intro ia s1
          refine bindE_extends (readRt_extends _ s1) ?_
          intro idx s2
          refine bindE_extends (ihBAV rest s2) ?_
          intro tl s3
          exact circuitExtends_refl _
        | ComponentAccess sn =>
          simp only [build_access_vec]
          refine bindE_extends (ihBAV rest s) ?_
          intro tl s1
          exact circuitExtends_refl _

/-- **C7** counterexample: processing `if (x + x) { }` over a declared
signal `x` fails with `NotAVariable` — the infix expression over signals
produces a signal access, which the branch dispatch then cannot read as a
value — yet the circuit after the failing statement differs from the one
before it: the fresh output signal and the `Add` gate appended while the
condition was processed persist.  Statement processing is therefore not
atomic with respect to the circuit. -/
theorem statement_error_atomicity_cex :
    (process_statement archEmpty 10 stmtC7 stSigX).1 = .error .NotAVariable ∧
    (process_statement archEmpty 10 stmtC7 stSigX).2.ac ≠ stSigX.ac := by
  decide

/-- **C7** (amended).  The claimed statement-level atomicity — a failing
statement leaves the circuit exactly as it was before the statement began
— is false: circuit mutations made before the error persist (see the
counterexample).  What the code does guarantee is append-only
monotonicity: whenever `process_statement` returns an error, the
resulting circuit extends the original one — every signal, gate and
connection present before the statement is still present, in order, and
nothing is removed or modified; the failing statement may only have
appended entries. -/
theorem statement_error_extends_circuit (arch : ProgramArchive) (fuel : Nat)
    (stmt : Statement) (s s2 : EState) (e : ProgramError)
    (h : process_statement arch fuel stmt s = (.error e, s2)) :
    circuitExtends s.ac s2.ac := by
  have hm := (circuit_monotone arch fuel).2.1 stmt s
  rw [h] at hm
  exact hm

/-- Witness for the amended C7 theorem, at the counterexample input: the
failing `if` statement leaves a changed but extended circuit. -/
theorem statement_error_extends_circuit_witness :
    circuitExtends stSigX.ac
      (⟨⟨[1, 2], [⟨ExpressionInfixOpcode.Add, 1, 1, 2⟩], []⟩, ⟨[⟨false, [("x", Item.sigItem ⟨[], [1]⟩), ("random_0", Item.sigItem ⟨[], [2]⟩)]⟩], 3, 1⟩⟩ : EState).ac :=
  statement_error_extends_circuit archEmpty 10 stmtC7 stSigX
    ⟨⟨[1, 2], [⟨ExpressionInfixOpcode.Add, 1, 1, 2⟩], []⟩, ⟨[⟨false, [("x", Item.sigItem ⟨[], [1]⟩), ("random_0", Item.sigItem ⟨[], [2]⟩)]⟩], 3, 1⟩⟩
    ProgramError.NotAVariable (by decide)
